import Mathlib

/-!
# Cross-chain bridge swap: batch formation and dispatch

A shallow embedding of the Go sources

* `internal/models/types.go`, `internal/models/database.go`
* `internal/service/bridge.go`
* `internal/processor/batch.go`, `internal/processor/wallet.go`

Conventions of the embedding.

* Go `int64` fields that are only compared or copied are `Int`.
* `time.Time` values are `Int` (a reading of the clock); `Before` is `<`.
  Every call of `time.Now()` is an explicit argument of the embedded function.
* A Go byte string that the code inspects byte by byte is a `List Nat` of byte
  codes (`'0'` is 48, `'9'` is 57, `'A'` is 65, `'a'` is 97, `'x'` is 120).
* A pointer into the wallet pool is the index of the wallet in the pool.
* A call either returns, returns an error, panics, or parks forever on a mutex
  that is already held: see `Outcome`.
-/

namespace BridgeSwap

/-! ## Outcomes of a call -/

/-- How a call of a Go function ends in the sequential model: it returns a
value, returns a non-nil `error`, panics (nil dereference), or parks forever on
a `sync.Mutex` that is held and that nobody will release. -/
inductive Outcome (α : Type) where
  | ok (a : α)
  | error (msg : String)
  | panic
  | blocked
  deriving DecidableEq

/-! ## go-ethereum `common.Address` (library code used by the validation) -/

/-- The constant `common.AddressLength`. -/
abbrev AddressLength : Nat := 20

/-- The type `common.Address`, a `[20]byte` array. -/
abbrev Address := { l : List (Fin 256) // l.length = AddressLength }

/-- The table `hextable` of `encoding/hex`: the bytes of `"0123456789abcdef"`. -/
def hextable : List Nat :=
  [48, 49, 50, 51, 52, 53, 54, 55, 56, 57, 97, 98, 99, 100, 101, 102]

/-- The function `hex.Encode`: two table entries per source byte, `v >> 4` then
`v & 0x0f`. -/
def hexEncode : List (Fin 256) → List Nat
  | [] => []
  | v :: rest =>
    hextable.getD (v.val / 16) 0 :: hextable.getD (v.val % 16) 0 :: hexEncode rest

/-- The method `Address.hex`: the bytes `"0x"` followed by the hex encoding. -/
def Address.hex (a : Address) : List Nat :=
  [48, 120] ++ hexEncode a.val

/-- The loop of `Address.checksumHex`, started at buffer index `i` on the rest
of the buffer: `hashByte := hash[(i-2)/2]`, its high nibble on even `i` and its
low nibble on odd `i`; a letter (`buf[i] > '9'`) under a nibble above 7 is
upper-cased (`buf[i] -= 32`). -/
def checksumLoop (hash : List (Fin 256)) : Nat → List Nat → List Nat
  | _, [] => []
  | i, c :: rest =>
    let hashByte := (hash.getD ((i - 2) / 2) 0).val
    let hashByte := if i % 2 = 0 then hashByte / 16 else hashByte % 16
    (if c > 57 ∧ hashByte > 7 then c - 32 else c) :: checksumLoop hash (i + 1) rest

/-- The method `Address.checksumHex`. The Keccak-256 digest of `buf[2:]` is the
parameter `keccak256` (a 32-byte digest in the library; the loop reads its first
20 bytes). -/
def Address.checksumHex (keccak256 : List Nat → List (Fin 256)) (a : Address) : List Nat :=
  let buf := Address.hex a
  let hash := keccak256 (buf.drop 2)
  buf.take 2 ++ checksumLoop hash 2 (buf.drop 2)

/-- The method `Address.Hex`. -/
def Address.Hex (keccak256 : List Nat → List (Fin 256)) (a : Address) : List Nat :=
  Address.checksumHex keccak256 a

/-- The function `has0xPrefix` of go-ethereum `common`. -/
def has0xPrefix (str : List Nat) : Bool :=
  decide (str.length ≥ 2) && str.getD 0 0 == 48 && (str.getD 1 0 == 120 || str.getD 1 0 == 88)

/-- The function `isHexCharacter` of go-ethereum `common`. -/
def isHexCharacter (c : Nat) : Bool :=
  (decide (48 ≤ c) && decide (c ≤ 57)) || (decide (97 ≤ c) && decide (c ≤ 102)) ||
    (decide (65 ≤ c) && decide (c ≤ 70))

/-- The function `isHex` of go-ethereum `common`. -/
def isHex (str : List Nat) : Bool :=
  if str.length % 2 ≠ 0 then false else str.all isHexCharacter

/-- The function `common.IsHexAddress`. -/
def IsHexAddress (s : List Nat) : Bool :=
  let s := if has0xPrefix s then s.drop 2 else s
  s.length == 2 * AddressLength && isHex s

/-! ## `internal/models/types.go` -/

/-- The struct `models.SwapRequest` of `types.go`. `Amount` is a `*big.Int`:
`none` is the nil pointer. -/
structure SwapRequest where
  RequestID : String
  FromChainID : Int
  ToChainID : Int
  TokenAddress : Address
  Amount : Option Int
  Recipient : Address
  Timestamp : Int
  deriving DecidableEq

/-- The struct `models.SwapStatus`. -/
structure SwapStatus where
  RequestID : String
  Status : String
  FromChainID : Int
  ToChainID : Int
  SourceTxHash : String
  TargetTxHash : String
  CreatedAt : Int
  UpdatedAt : Int
  deriving DecidableEq

/-! ## `internal/service/bridge.go`: validation -/

/-- The struct `service.Config`. -/
structure Config where
  Chain1RPC : String
  Chain2RPC : String
  Chain1ID : Int
  Chain2ID : Int
  BridgeAddr1 : String
  BridgeAddr2 : String
  deriving DecidableEq

/-- The method `(*big.Int).Cmp`: -1, 0 or +1. -/
def Cmp (x y : Int) : Int :=
  if x < y then -1 else if x = y then 0 else 1

/-- The method `BridgeService.validateSwapRequest`, on the configuration of the
service. The checks run in source order; `req.Amount.Cmp` on a nil `Amount`
dereferences nil and panics. -/
def validateSwapRequest (keccak256 : List Nat → List (Fin 256)) (config : Config)
    (req : SwapRequest) : Outcome Unit :=
  if req.FromChainID ≠ config.Chain1ID ∧ req.FromChainID ≠ config.Chain2ID then
    .error "invalid source chain ID"
  else if req.ToChainID ≠ config.Chain1ID ∧ req.ToChainID ≠ config.Chain2ID then
    .error "invalid destination chain ID"
  else if req.FromChainID = req.ToChainID then
    .error "source and destination chains must be different"
  else if !IsHexAddress (Address.Hex keccak256 req.TokenAddress) then
    .error "invalid token address"
  else
    match req.Amount with
    | none => .panic
    | some amount =>
      if Cmp amount 0 ≤ 0 then
        .error "amount must be greater than 0"
      else if !IsHexAddress (Address.Hex keccak256 req.Recipient) then
        .error "invalid recipient address"
      else
        .ok ()

/-! ## `internal/models/database.go` -/

/-- The struct `models.SwapRequest` of `database.go`: a row of table `swaps`.
The file declares `Amount` as `string` while `bridge.go` hands over the
`*big.Int` of the request; the row keeps the value handed over. -/
structure SwapRow where
  RequestID : String
  FromChainID : Int
  ToChainID : Int
  TokenAddress : Address
  Amount : Option Int
  Recipient : Address
  Status : String
  ErrorMessage : Option String
  CreatedAt : Int
  UpdatedAt : Int
  deriving DecidableEq

/-- The struct `models.Batch`: a row of table `batches`. -/
structure Batch where
  ID : Int
  BatchID : String
  WalletAddress : List Nat
  ChainID : Int
  SourceTxHash : Option String
  TargetTxHash : Option String
  Status : String
  GasPrice : Option String
  GasUsed : Option Int
  BlockNumber : Option Int
  ErrorMessage : Option String
  CreatedAt : Int
  UpdatedAt : Int
  deriving DecidableEq

/-- The struct `models.HotWallet`: a row of table `hot_wallets`. -/
structure HotWallet where
  ID : Int
  Address : List Nat
  ChainID : Int
  Nonce : Int
  LastUsedAt : Option Int
  IsActive : Bool
  TotalProcessedBatches : Int
  TotalProcessedVolume : String
  CreatedAt : Int
  UpdatedAt : Int
  deriving DecidableEq

/-- The contents of the store behind `models.Database`: the tables the
embedded operations read and write. -/
structure Database where
  swaps : List SwapRow
  batches : List Batch
  batch_swaps : List (Int × String)
  hot_wallets : List HotWallet
  deriving DecidableEq

/-- What the database server answers to an `INSERT ... RETURNING`: the
statement is rejected and nothing is written, or the row is written with the
returned columns and `Scan` reports `scanErr`. -/
inductive InsertReply where
  | rejected (msg : String)
  | written (id createdAt updatedAt : Int) (scanErr : Option String)
  deriving DecidableEq

/-- The method `Database.CreateSwap`: one insert into `swaps`. The statement
returns the three columns `id`, `created_at`, `updated_at` and the method scans
them into two destinations, so on every written row `Scan` reports the arity
error of `database/sql` and assigns nothing: the row is in the table (with the
timestamps of the server) and the method returns that error. -/
def Database.CreateSwap (db : Database) (swap : SwapRow) (reply : InsertReply) :
    Database × Outcome SwapRow :=
  match reply with
  | .rejected msg => (db, .error msg)
  | .written _ createdAt updatedAt _ =>
    let row := { swap with CreatedAt := createdAt, UpdatedAt := updatedAt }
    let db1 := { db with swaps := db.swaps ++ [row] }
    (db1, .error "sql: expected 3 destination arguments in Scan, not 2")

/-- The method `Database.CreateBatch`: one insert into `batches`; the columns
`id`, `created_at`, `updated_at` come back from the server. -/
def Database.CreateBatch (db : Database) (batch : Batch) (reply : InsertReply) :
    Database × Outcome Batch :=
  match reply with
  | .rejected msg => (db, .error msg)
  | .written id createdAt updatedAt scanErr =>
    let row := { batch with ID := id, CreatedAt := createdAt, UpdatedAt := updatedAt }
    let db1 := { db with batches := db.batches ++ [row] }
    match scanErr with
    | some msg => (db1, .error msg)
    | none => (db1, .ok row)

/-- The method `Database.AddSwapsToBatch`: one transaction that inserts the
membership rows and sets the named swaps to `queued`. `failure` is the first
error of the transaction, if any; the deferred `Rollback` then leaves the store
as it was. `now` is the server's `NOW()`. -/
def Database.AddSwapsToBatch (db : Database) (batchID : Int) (swapIDs : List String)
    (failure : Option String) (now : Int) : Database × Outcome Unit :=
  match failure with
  | some msg => (db, .error msg)
  | none =>
    ({ db with
        batch_swaps := db.batch_swaps ++ swapIDs.map (fun swapID => (batchID, swapID))
        swaps := db.swaps.map (fun row =>
          if row.RequestID ∈ swapIDs then { row with Status := "queued", UpdatedAt := now }
          else row) },
     .ok ())

/-! ## `internal/processor/wallet.go` -/

/-- The struct `processor.Wallet`. The private key is an abstract scalar and
`NonceMap` an association list. The two mutexes of the file are taken and
released inside a single call and never nested on themselves, so in the
sequential model they are always free between calls and are left out. -/
structure Wallet where
  PrivateKey : Nat
  Address : Address
  NonceMap : List (Int × Nat)
  IsProcessing : Bool
  LastUsed : Int
  deriving DecidableEq

/-- The struct `processor.WalletPool`. -/
structure WalletPool where
  wallets : List Wallet
  deriving DecidableEq

/-- The loop of `getAvailableWallet` from pool index `i` on: `selected` is
`selectedWallet` (an index, `none` for nil) and `oldest` is `oldestLastUsed`. -/
def selectLoop : List Wallet → Nat → Option Nat → Int → Option Nat × Int
  | [], _, selected, oldest => (selected, oldest)
  | wallet :: rest, i, selected, oldest =>
    if !wallet.IsProcessing && decide (wallet.LastUsed < oldest) then
      selectLoop rest (i + 1) (some i) wallet.LastUsed
    else
      selectLoop rest (i + 1) selected oldest

/-- The method `WalletPool.getAvailableWallet`. `now` is the first reading of
`time.Now()` (the initial `oldestLastUsed`) and `stamp` the second one, written
to the selected wallet. The result is the pool afterwards and the selected
wallet, `none` for nil. -/
def WalletPool.getAvailableWallet (wp : WalletPool) (now stamp : Int) :
    WalletPool × Option Nat :=
  match (selectLoop wp.wallets 0 none now).1 with
  | none => (wp, none)
  | some i =>
    ({ wallets := wp.wallets.modify
        (fun wallet => { wallet with IsProcessing := true, LastUsed := stamp }) i },
     some i)

/-- The method `WalletPool.releaseWallet` on the wallet at index `i`. -/
def WalletPool.releaseWallet (wp : WalletPool) (i : Nat) : WalletPool :=
  { wallets := wp.wallets.modify (fun wallet => { wallet with IsProcessing := false }) i }

/-- The method `Wallet.ProcessBatch`: the body is `return nil`. -/
def Wallet.ProcessBatch (_w : Wallet) (_chainID : Int) (_batch : List SwapRequest)
    (_batchID : Int) : Outcome Unit :=
  .ok ()

/-- A lease or a release on the pool, for sequences of pool operations. -/
inductive PoolOp where
  | lease (now stamp : Int)
  | release (i : Nat)
  deriving DecidableEq

/-- Run one pool operation. -/
def WalletPool.step (wp : WalletPool) : PoolOp → WalletPool
  | .lease now stamp => (wp.getAvailableWallet now stamp).1
  | .release i => wp.releaseWallet i

/-- Run a sequence of pool operations, left to right. -/
def WalletPool.run (wp : WalletPool) (ops : List PoolOp) : WalletPool :=
  ops.foldl WalletPool.step wp

/-! ## `internal/processor/batch.go` -/

/-- The constant `BATCH_SIZE`. -/
def BATCH_SIZE : Nat := 50

/-- The constant `BATCH_TIMEOUT`, in seconds. -/
def BATCH_TIMEOUT : Int := 30

/-- A `time.Timer`: its duration, whether `Stop` was called on it and whether
it has expired and delivered on its channel. -/
structure Timer where
  d : Int
  stopped : Bool
  fired : Bool
  deriving DecidableEq

/-- The struct `processor.BatchProcessor`. `batchMutex` is `true` while the
mutex is held; `batchTimer` is `none` for the nil pointer; `processChan`, a
channel of capacity 1, is `true` while it buffers a signal. The pool and the
store are the objects the pointers refer to. -/
structure BatchProcessor where
  currentBatch : List SwapRequest
  batchMutex : Bool
  batchTimer : Option Timer
  walletPool : WalletPool
  db : Database
  processChan : Bool
  deriving DecidableEq

/-- The method `BatchProcessor.startNewBatch`. `Lock` on the held mutex parks
the caller; otherwise the batch and the timer are replaced and the deferred
`Unlock` runs. The goroutine that waits on the timer is a separate task. -/
def BatchProcessor.startNewBatch (bp : BatchProcessor) : BatchProcessor × Outcome Unit :=
  if bp.batchMutex then (bp, .blocked)
  else
    let bp := { bp with batchMutex := true }
    let bp := { bp with currentBatch := [] }
    let bp := { bp with batchTimer := some { d := BATCH_TIMEOUT, stopped := false, fired := false } }
    ({ bp with batchMutex := false }, .ok ())

/-- The function `NewBatchProcessor`: the struct literal, then `startNewBatch`.
The `processLoop` goroutine is a separate task. -/
def NewBatchProcessor (walletPool : WalletPool) (db : Database) : BatchProcessor :=
  (BatchProcessor.startNewBatch
    { currentBatch := [], batchMutex := false, batchTimer := none,
      walletPool := walletPool, db := db, processChan := false }).1

/-- The method `BatchProcessor.triggerProcess`: a send that is dropped when the
channel already buffers a signal. -/
def BatchProcessor.triggerProcess (bp : BatchProcessor) : BatchProcessor :=
  if bp.processChan then bp else { bp with processChan := true }

/-- The method `BatchProcessor.AddRequest`. `Lock` on the held mutex parks the
caller. `Stop` on a nil timer panics and the deferred `Unlock` still runs. -/
def BatchProcessor.AddRequest (bp : BatchProcessor) (req : SwapRequest) :
    BatchProcessor × Outcome Unit :=
  if bp.batchMutex then (bp, .blocked)
  else
    let bp := { bp with batchMutex := true }
    let bp := { bp with currentBatch := bp.currentBatch ++ [req] }
    if bp.currentBatch.length ≥ BATCH_SIZE then
      match bp.batchTimer with
      | none => ({ bp with batchMutex := false }, .panic)
      | some t =>
        let bp := { bp with batchTimer := some { t with stopped := true } }
        let bp := bp.triggerProcess
        ({ bp with batchMutex := false }, .ok ())
    else
      ({ bp with batchMutex := false }, .ok ())

/-- The value `chainBatches[k]` of the Go map, nil when the key is absent. -/
def mapGet : List (Int × List SwapRequest) → Int → List SwapRequest
  | [], _ => []
  | (k1, v) :: rest, k => if k1 = k then v else mapGet rest k

/-- The assignment `chainBatches[k] = v` of the Go map: the entry of an
existing key is replaced, a new key gets a new entry. -/
def mapSet : List (Int × List SwapRequest) → Int → List SwapRequest →
    List (Int × List SwapRequest)
  | [], k, v => [(k, v)]
  | (k1, v1) :: rest, k, v =>
    if k1 = k then (k1, v) :: rest else (k1, v1) :: mapSet rest k v

/-- The grouping loop of `processBatch`:
`chainBatches[req.FromChainID] = append(chainBatches[req.FromChainID], req)`
for every request of the captured batch, in order. The result lists the entries
of the map (Go iterates them in an unspecified order). -/
def groupByChain (batch : List SwapRequest) : List (Int × List SwapRequest) :=
  batch.foldl
    (fun chainBatches req =>
      mapSet chainBatches req.FromChainID (mapGet chainBatches req.FromChainID ++ [req]))
    []

/-- The inputs one dispatcher goroutine takes from outside the code in `src`:
the two clock readings of the lease, the `batch_id` and `status` columns of the
batch insert (the call in `batch.go` names the wallet address and the chain
only), the field `swap.ID` that `batch.go` reads and `types.go` does not
declare, as the string id `AddSwapsToBatch` receives for that swap, and the
answers of the database. -/
structure DispatchEnv where
  now : Int
  stamp : Int
  batchID : String
  status : String
  swapID : SwapRequest → String
  createBatchReply : InsertReply
  addSwapsFailure : Option String
  dbNow : Int

/-- The method `BatchProcessor.processChainBatch` on the store: create the
batch record, collect `swap.ID` of every swap of the partition (the reading
`env.swapID`), hand these ids to `AddSwapsToBatch`, then `wallet.ProcessBatch`. -/
def processChainBatch (keccak256 : List Nat → List (Fin 256)) (db : Database) (chainID : Int)
    (batch : List SwapRequest) (wallet : Wallet) (env : DispatchEnv) :
    Database × Outcome Unit :=
  let record : Batch :=
    { ID := 0, BatchID := env.batchID, WalletAddress := Address.Hex keccak256 wallet.Address,
      ChainID := chainID, SourceTxHash := none, TargetTxHash := none, Status := env.status,
      GasPrice := none, GasUsed := none, BlockNumber := none, ErrorMessage := none,
      CreatedAt := 0, UpdatedAt := 0 }
  match db.CreateBatch record env.createBatchReply with
  | (db1, .ok batchRecord) =>
    let swapIDs := batch.map (fun swap => env.swapID swap)
    match db1.AddSwapsToBatch batchRecord.ID swapIDs env.addSwapsFailure env.dbNow with
    | (db2, .ok ()) =>
      (db2, wallet.ProcessBatch chainID batch batchRecord.ID)
    | (db2, .error msg) => (db2, .error msg)
    | (db2, .panic) => (db2, .panic)
    | (db2, .blocked) => (db2, .blocked)
  | (db1, .error msg) => (db1, .error msg)
  | (db1, .panic) => (db1, .panic)
  | (db1, .blocked) => (db1, .blocked)

/-- The body of the dispatcher goroutine of `processBatch` for one partition:
lease a wallet, return at once when there is none, otherwise run
`processChainBatch` (its error is dropped) and release the wallet. -/
def dispatch (keccak256 : List Nat → List (Fin 256)) (walletPool : WalletPool) (db : Database)
    (cid : Int) (cbatch : List SwapRequest) (env : DispatchEnv) : WalletPool × Database :=
  match walletPool.getAvailableWallet env.now env.stamp with
  | (pool1, none) => (pool1, db)
  | (pool1, some i) =>
    match pool1.wallets[i]? with
    | none => (pool1.releaseWallet i, db)
    | some wallet =>
      let (db1, _err) := processChainBatch keccak256 db cid cbatch wallet env
      (pool1.releaseWallet i, db1)

/-- The method `BatchProcessor.processBatch`. It takes the mutex, and both
branches call `startNewBatch`, which takes the same mutex. When that call
returns, `Unlock` runs (on a mutex that is not held it is a fatal error), the
captured batch is grouped and every partition is dispatched with the
environment `envs` gives its chain; the dispatchers are run one after the
other. -/
def BatchProcessor.processBatch (keccak256 : List Nat → List (Fin 256)) (bp : BatchProcessor)
    (envs : Int → DispatchEnv) : BatchProcessor × Outcome Unit :=
  if bp.batchMutex then (bp, .blocked)
  else
    let bp := { bp with batchMutex := true }
    if bp.currentBatch.length = 0 then
      match bp.startNewBatch with
      | (bp1, .ok ()) =>
        if bp1.batchMutex then ({ bp1 with batchMutex := false }, .ok ())
        else (bp1, .panic)
      | (bp1, .error msg) => (bp1, .error msg)
      | (bp1, .panic) => (bp1, .panic)
      | (bp1, .blocked) => (bp1, .blocked)
    else
      let batch := bp.currentBatch
      match bp.startNewBatch with
      | (bp1, .ok ()) =>
        if bp1.batchMutex then
          let bp2 := { bp1 with batchMutex := false }
          let chainBatches := groupByChain batch
          let (pool, db) := chainBatches.foldl
            (fun (state : WalletPool × Database) (entry : Int × List SwapRequest) =>
              dispatch keccak256 state.1 state.2 entry.1 entry.2 (envs entry.1))
            (bp2.walletPool, bp2.db)
          ({ bp2 with walletPool := pool, db := db }, .ok ())
        else (bp1, .panic)
      | (bp1, .error msg) => (bp1, .error msg)
      | (bp1, .panic) => (bp1, .panic)
      | (bp1, .blocked) => (bp1, .blocked)

/-- The goroutine started by `startNewBatch`, at the expiry of the timer:
`<-bp.batchTimer.C` then `bp.triggerProcess()`. A timer that was stopped or has
already delivered delivers nothing, and the goroutine stays parked. -/
def BatchProcessor.timerExpires (bp : BatchProcessor) : BatchProcessor :=
  match bp.batchTimer with
  | none => bp
  | some t =>
    if t.stopped || t.fired then bp
    else BatchProcessor.triggerProcess { bp with batchTimer := some { t with fired := true } }

/-- One iteration of the method `BatchProcessor.processLoop`,
`for range bp.processChan { bp.processBatch() }`: the receive takes the
buffered signal off the channel, then `processBatch` runs. With no signal
buffered the loop waits at the receive. -/
def BatchProcessor.processLoop (keccak256 : List Nat → List (Fin 256)) (bp : BatchProcessor)
    (envs : Int → DispatchEnv) : BatchProcessor × Outcome Unit :=
  if bp.processChan then
    BatchProcessor.processBatch keccak256 { bp with processChan := false } envs
  else (bp, .blocked)

/-- A step of the aggregator: a call of `AddRequest`, the expiry of the batch
timer, or an iteration of `processLoop` (the close). -/
inductive Step where
  | add (req : SwapRequest)
  | timeout
  | close (envs : Int → DispatchEnv)

/-- Run one step; the state it leaves is kept whatever the outcome. Between
steps the mutex is held only by the one `processLoop` goroutine parked inside
`processBatch` (every other critical section lies inside one step), and a
parked loop takes no further iteration. -/
def BatchProcessor.step (keccak256 : List Nat → List (Fin 256)) (bp : BatchProcessor) :
    Step → BatchProcessor
  | .add req => (bp.AddRequest req).1
  | .timeout => bp.timerExpires
  | .close envs => if bp.batchMutex then bp else (bp.processLoop keccak256 envs).1

/-- Run a sequence of steps, left to right. -/
def BatchProcessor.run (keccak256 : List Nat → List (Fin 256)) (bp : BatchProcessor)
    (steps : List Step) : BatchProcessor :=
  steps.foldl (BatchProcessor.step keccak256) bp

/-! ## `internal/service/bridge.go`: admission -/

/-- The struct `service.BridgeService`. Its `walletPool` and `db` pointers are
the ones handed to `NewBatchProcessor`, so the pool and the store are those of
`batchProcessor`. -/
structure BridgeService where
  config : Config
  batchProcessor : BatchProcessor

/-- The method `BridgeService.InitiateSwap`. `now` is the clock reading of the
`Timestamp` and `now2` that of the returned `CreatedAt`; `reply` is the answer
of the database to the insert. The struct literal handed to `CreateSwap` sets
no status, so the row carries the empty string. -/
def BridgeService.InitiateSwap (keccak256 : List Nat → List (Fin 256)) (s : BridgeService)
    (req : SwapRequest) (now now2 : Int) (reply : InsertReply) :
    BridgeService × Outcome SwapStatus :=
  match validateSwapRequest keccak256 s.config req with
  | .error msg => (s, .error msg)
  | .panic => (s, .panic)
  | .blocked => (s, .blocked)
  | .ok () =>
    let row : SwapRow :=
      { RequestID := req.RequestID, FromChainID := req.FromChainID, ToChainID := req.ToChainID,
        TokenAddress := req.TokenAddress, Amount := req.Amount, Recipient := req.Recipient,
        Status := "", ErrorMessage := none, CreatedAt := now, UpdatedAt := now }
    match s.batchProcessor.db.CreateSwap row reply with
    | (db1, .error msg) =>
      ({ s with batchProcessor := { s.batchProcessor with db := db1 } }, .error msg)
    | (db1, .panic) =>
      ({ s with batchProcessor := { s.batchProcessor with db := db1 } }, .panic)
    | (db1, .blocked) =>
      ({ s with batchProcessor := { s.batchProcessor with db := db1 } }, .blocked)
    | (db1, .ok _) =>
      match ({ s.batchProcessor with db := db1 } : BatchProcessor).AddRequest req with
      | (bp1, .ok ()) =>
        ({ s with batchProcessor := bp1 },
         .ok { RequestID := req.RequestID, Status := "pending", FromChainID := req.FromChainID,
               ToChainID := req.ToChainID, SourceTxHash := "", TargetTxHash := "",
               CreatedAt := now2, UpdatedAt := 0 })
      | (bp1, .error msg) => ({ s with batchProcessor := bp1 }, .error msg)
      | (bp1, .panic) => ({ s with batchProcessor := bp1 }, .panic)
      | (bp1, .blocked) => ({ s with batchProcessor := bp1 }, .blocked)

/-! ## Nonces and traces of the aggregator -/

/-- The value `NonceMap[chainID]` of the Go map of a wallet, 0 when the key is
absent. -/
def nonceGet : List (Int × Nat) → Int → Nat
  | [], _ => 0
  | (k, v) :: rest, chainID => if k = chainID then v else nonceGet rest chainID

/-- The batch an iteration of `processLoop` hands to the dispatch stage. The
local `batch := bp.currentBatch` is read under the lock and reaches the
grouping loop only when `processBatch` gets past `startNewBatch`, in which case
the call returns; an iteration that does not return hands over nothing. -/
def BatchProcessor.capturedBatch (keccak256 : List Nat → List (Fin 256)) (bp : BatchProcessor)
    (envs : Int → DispatchEnv) : List SwapRequest :=
  if bp.batchMutex then []
  else
    match (bp.processLoop keccak256 envs).2 with
    | .ok () => bp.currentBatch
    | .error _ => []
    | .panic => []
    | .blocked => []

/-- The batches handed to the dispatch stage by the close steps of a sequence
of steps, in close order. -/
def BatchProcessor.capturedBatches (keccak256 : List Nat → List (Fin 256)) :
    BatchProcessor → List Step → List (List SwapRequest)
  | _, [] => []
  | bp, .add req :: rest =>
    BatchProcessor.capturedBatches keccak256 (bp.step keccak256 (.add req)) rest
  | bp, .timeout :: rest =>
    BatchProcessor.capturedBatches keccak256 (bp.step keccak256 .timeout) rest
  | bp, .close envs :: rest =>
    bp.capturedBatch keccak256 envs ::
      BatchProcessor.capturedBatches keccak256 (bp.step keccak256 (.close envs)) rest

/-- The admitted requests of a sequence of steps, in admission order: the
requests of the calls of `AddRequest` that returned. A call that parks on the
held mutex has admitted nothing. -/
def BatchProcessor.admittedRequests (keccak256 : List Nat → List (Fin 256)) :
    BatchProcessor → List Step → List SwapRequest
  | _, [] => []
  | bp, .add req :: rest =>
    (match (bp.AddRequest req).2 with
      | .ok () => [req]
      | .error _ => []
      | .panic => []
      | .blocked => []) ++
      BatchProcessor.admittedRequests keccak256 (bp.step keccak256 (.add req)) rest
  | bp, .timeout :: rest =>
    BatchProcessor.admittedRequests keccak256 (bp.step keccak256 .timeout) rest
  | bp, .close envs :: rest =>
    BatchProcessor.admittedRequests keccak256 (bp.step keccak256 (.close envs)) rest

/-! ## Invariants used in the proofs -/

/-- The invariant of the aggregator: a timer is installed, and the open batch
holds fewer than `BATCH_SIZE` requests or its timer has been stopped. -/
def AggregatorInv (bp : BatchProcessor) : Prop :=
  ∃ t, bp.batchTimer = some t ∧
    (bp.currentBatch.length < BATCH_SIZE ∨ t.stopped = true)

/-- The invariant of the grouping loop after the requests `seen`: the keys are
distinct, the entry of a chain is the list of seen requests of that chain in
order, and the keys are the chains of the seen requests. -/
def GroupInv (m : List (Int × List SwapRequest)) (seen : List SwapRequest) : Prop :=
  (m.map Prod.fst).Nodup ∧
  (∀ c, mapGet m c = seen.filter (fun r => decide (r.FromChainID = c))) ∧
  (∀ c, c ∈ m.map Prod.fst ↔ ∃ r ∈ seen, r.FromChainID = c)

/-- The wallet at index `i` is marked in use. -/
def InUse (wp : WalletPool) (i : Nat) : Prop :=
  ∃ w, wp.wallets[i]? = some w ∧ w.IsProcessing = true

/-! ## Concrete inputs -/

/-- A digest function for concrete evaluation: 32 zero bytes. -/
def zeroDigest : List Nat → List (Fin 256) :=
  fun _ => List.replicate 32 0

/-- The address whose 20 bytes are all `b`. -/
def constAddress (b : Fin 256) : Address :=
  ⟨List.replicate 20 b, List.length_replicate 20 b⟩

/-- The configuration `cmd/main.go` builds: chain 1 and chain 56. -/
def mainConfig : Config :=
  { Chain1RPC := "", Chain2RPC := "", Chain1ID := 1, Chain2ID := 56,
    BridgeAddr1 := "", BridgeAddr2 := "" }

/-- The swap of the first scenario: `r1`, from chain 1 to chain 56, amount 1000. -/
def sampleRequest : SwapRequest :=
  { RequestID := "r1", FromChainID := 1, ToChainID := 56, TokenAddress := constAddress 1,
    Amount := some 1000, Recipient := constAddress 2, Timestamp := 0 }

/-- A swap whose source and destination chain are both chain 1. -/
def sameChainRequest : SwapRequest :=
  { sampleRequest with RequestID := "r2", ToChainID := 1 }

/-- A store with no rows. -/
def emptyDb : Database :=
  { swaps := [], batches := [], batch_swaps := [], hot_wallets := [] }

/-- A wallet that is not in use, with the given key, address byte and
`LastUsed`. -/
def freeWallet (key : Nat) (b : Fin 256) (lastUsed : Int) : Wallet :=
  { PrivateKey := key, Address := constAddress b, NonceMap := [], IsProcessing := false,
    LastUsed := lastUsed }

/-- A pool of two free wallets with the same `LastUsed`. -/
def twoWalletPool : WalletPool :=
  { wallets := [freeWallet 1 1 0, freeWallet 2 2 0] }

/-- A service as `NewBridgeService` builds it on `mainConfig`. -/
def sampleService : BridgeService :=
  { config := mainConfig, batchProcessor := NewBatchProcessor twoWalletPool emptyDb }

/-- An aggregator whose open batch holds 49 requests. -/
def almostFullProcessor : BatchProcessor :=
  { NewBatchProcessor twoWalletPool emptyDb with
    currentBatch := List.replicate 49 sampleRequest }

/-- A `BatchProcessor` built as a struct literal instead of by
`NewBatchProcessor`, so with a nil timer, after 49 admissions. -/
def timerlessProcessor : BatchProcessor :=
  { currentBatch := List.replicate 49 sampleRequest, batchMutex := false, batchTimer := none,
    walletPool := twoWalletPool, db := emptyDb, processChan := false }

/-- The persisted records of the wallets of `twoWalletPool`: the first wallet
is registered for chain 56 with 7 processed batches, the second for chain 1
with none. -/
def twoWalletDb : Database :=
  { swaps := [], batches := [], batch_swaps := [],
    hot_wallets :=
      [{ ID := 1, Address := Address.Hex zeroDigest (constAddress 1), ChainID := 56, Nonce := 0,
         LastUsedAt := none, IsActive := true, TotalProcessedBatches := 7,
         TotalProcessedVolume := "0", CreatedAt := 0, UpdatedAt := 0 },
       { ID := 2, Address := Address.Hex zeroDigest (constAddress 2), ChainID := 1, Nonce := 0,
         LastUsedAt := none, IsActive := true, TotalProcessedBatches := 0,
         TotalProcessedVolume := "0", CreatedAt := 0, UpdatedAt := 0 }] }

/-- A pool of two free wallets, the first last used at 5, the second at 3. -/
def staggeredPool : WalletPool :=
  { wallets := [freeWallet 1 1 5, freeWallet 2 2 3] }

/-- A pool whose only wallet is in use. -/
def busyPool : WalletPool :=
  { wallets := [{ freeWallet 1 1 0 with IsProcessing := true }] }

/-- A store that holds the swap `r1` of `sampleRequest` at status `pending`. -/
def pendingDb : Database :=
  { swaps :=
      [{ RequestID := "r1", FromChainID := 1, ToChainID := 56, TokenAddress := constAddress 1,
         Amount := some 1000, Recipient := constAddress 2, Status := "pending",
         ErrorMessage := none, CreatedAt := 0, UpdatedAt := 0 }],
    batches := [], batch_swaps := [], hot_wallets := [] }

/-- An environment in which every database call succeeds: the lease reads the
clock at 10 and 11, the batch is inserted as `b1` with status `submitting` and
comes back with id 1; `swap.ID` reads as the request id of the swap. -/
def sampleEnv : DispatchEnv :=
  { now := 10, stamp := 11, batchID := "b1", status := "submitting",
    swapID := fun swap => swap.RequestID,
    createBatchReply := .written 1 12 12 none, addSwapsFailure := none, dbNow := 13 }

/-- The environment `sampleEnv` with `swap.ID` reading as the zero value of an
`int64` field that nothing assigns. -/
def zeroIdEnv : DispatchEnv :=
  { sampleEnv with swapID := fun _ => "0" }

/-- The store of `pendingDb` together with the wallet records of
`twoWalletDb` (both nonces 0). -/
def pendingWalletDb : Database :=
  { pendingDb with hot_wallets := twoWalletDb.hot_wallets }

/-- A pool whose only wallet is free and was last used at clock reading 10. -/
def stalePool : WalletPool :=
  { wallets := [freeWallet 1 1 10] }

/-! ## Lemmas on the address rendering -/

theorem hextable_getD_mem (n : Nat) (h : n < 16) : hextable.getD n 0 ∈ hextable := by
  interval_cases n <;> decide

theorem hexEncode_length (bs : List (Fin 256)) : (hexEncode bs).length = 2 * bs.length := by
  induction bs with
  | nil => rfl
  | cons v rest ih => simp [hexEncode, ih]; omega

theorem hexEncode_mem (bs : List (Fin 256)) : ∀ c ∈ hexEncode bs, c ∈ hextable := by
  induction bs with
  | nil => intro c hc; simp [hexEncode] at hc
  | cons v rest ih =>
    intro c hc
    simp only [hexEncode, List.mem_cons] at hc
    rcases hc with h | h | h
    · rw [h]; exact hextable_getD_mem _ (Nat.div_lt_of_lt_mul (by have := v.isLt; omega))
    · rw [h]; exact hextable_getD_mem _ (Nat.mod_lt _ (by decide))
    · exact ih c h

theorem checksumLoop_length (hash : List (Fin 256)) (cs : List Nat) :
    ∀ i, (checksumLoop hash i cs).length = cs.length := by
  induction cs with
  | nil => intro i; rfl
  | cons c rest ih => intro i; simp [checksumLoop, ih]

theorem isHexCharacter_cased (c : Nat) (up : Prop) [Decidable up] (hc : c ∈ hextable) :
    isHexCharacter (if c > 57 ∧ up then c - 32 else c) = true := by
  simp only [hextable, List.mem_cons, List.mem_singleton, List.not_mem_nil, or_false] at hc
  by_cases hu : up <;> rcases hc with h | h | h | h | h | h | h | h | h | h | h | h | h | h | h | h <;>
    subst h <;> simp [isHexCharacter, hu]

theorem checksumLoop_all (hash : List (Fin 256)) (cs : List Nat)
    (hcs : ∀ c ∈ cs, c ∈ hextable) :
    ∀ i, (checksumLoop hash i cs).all isHexCharacter = true := by
  induction cs with
  | nil => intro i; rfl
  | cons c rest ih =>
    intro i
    simp only [checksumLoop, List.all_cons, Bool.and_eq_true]
    exact ⟨isHexCharacter_cased c _ (hcs c (List.mem_cons_self _ _)),
      ih (fun d hd => hcs d (List.mem_cons_of_mem _ hd)) (i + 1)⟩

/-- The checksummed rendering of an address always passes `IsHexAddress`. -/
theorem IsHexAddress_Hex (keccak256 : List Nat → List (Fin 256)) (a : Address) :
    IsHexAddress (Address.Hex keccak256 a) = true := by
  have hlen : (hexEncode a.val).length = 40 := by
    rw [hexEncode_length, a.property]
    rfl
  have hform : Address.Hex keccak256 a
      = 48 :: 120 :: checksumLoop (keccak256 (hexEncode a.val)) 2 (hexEncode a.val) := by
    simp [Address.Hex, Address.checksumHex, Address.hex]
  rw [hform]
  have hl := checksumLoop_length (keccak256 (hexEncode a.val)) (hexEncode a.val) 2
  have hall := checksumLoop_all (keccak256 (hexEncode a.val)) (hexEncode a.val)
    (hexEncode_mem a.val) 2
  simp [IsHexAddress, has0xPrefix, isHex, hl, hlen, hall, AddressLength]

/-! ## Lemmas on the aggregator -/

/-- With the mutex free, `processBatch` takes it and parks inside
`startNewBatch`, which asks for the same mutex. -/
theorem processBatch_blocks (keccak256 : List Nat → List (Fin 256)) (bp : BatchProcessor)
    (envs : Int → DispatchEnv) (hfree : bp.batchMutex = false) :
    bp.processBatch keccak256 envs = ({ bp with batchMutex := true }, .blocked) := by
  unfold BatchProcessor.processBatch
  simp only [hfree, Bool.false_eq_true, if_false]
  by_cases hlen : bp.currentBatch.length = 0 <;>
    simp [hlen, BatchProcessor.startNewBatch]

theorem processBatch_held (keccak256 : List Nat → List (Fin 256)) (bp : BatchProcessor)
    (envs : Int → DispatchEnv) (hheld : bp.batchMutex = true) :
    bp.processBatch keccak256 envs = (bp, .blocked) := by
  unfold BatchProcessor.processBatch
  simp [hheld]

theorem AddRequest_held (bp : BatchProcessor) (req : SwapRequest)
    (hheld : bp.batchMutex = true) : bp.AddRequest req = (bp, .blocked) := by
  unfold BatchProcessor.AddRequest
  simp [hheld]

theorem triggerProcess_eq (bp : BatchProcessor) :
    bp.triggerProcess = { bp with processChan := true } := by
  unfold BatchProcessor.triggerProcess
  cases bp with
  | mk cb m t wp db pc => cases pc <;> rfl

theorem AddRequest_below (bp : BatchProcessor) (req : SwapRequest)
    (hfree : bp.batchMutex = false) (hlt : bp.currentBatch.length + 1 < BATCH_SIZE) :
    bp.AddRequest req = ({ bp with currentBatch := bp.currentBatch ++ [req] }, .ok ()) := by
  have hn : ¬ (bp.currentBatch ++ [req]).length ≥ BATCH_SIZE := by
    simp only [List.length_append, List.length_singleton]; omega
  cases bp with
  | mk cb m t wp db pc =>
    simp only at hfree hn
    subst hfree
    simp only [BatchProcessor.AddRequest, Bool.false_eq_true, if_false, hn]

theorem AddRequest_full (bp : BatchProcessor) (req : SwapRequest) (t : Timer)
    (hfree : bp.batchMutex = false) (hge : BATCH_SIZE ≤ bp.currentBatch.length + 1)
    (ht : bp.batchTimer = some t) :
    bp.AddRequest req
      = ({ bp with
            currentBatch := bp.currentBatch ++ [req]
            batchTimer := some { t with stopped := true }
            processChan := true }, .ok ()) := by
  have hn : (bp.currentBatch ++ [req]).length ≥ BATCH_SIZE := by
    simp only [List.length_append, List.length_singleton]; omega
  cases bp with
  | mk cb m tm wp db pc =>
    simp only at hfree hn ht
    subst hfree
    subst ht
    simp only [BatchProcessor.AddRequest, Bool.false_eq_true, if_false, hn, if_true,
      triggerProcess_eq]

theorem AddRequest_no_timer (bp : BatchProcessor) (req : SwapRequest)
    (hfree : bp.batchMutex = false) (hge : BATCH_SIZE ≤ bp.currentBatch.length + 1)
    (ht : bp.batchTimer = none) :
    bp.AddRequest req = ({ bp with currentBatch := bp.currentBatch ++ [req] }, .panic) := by
  have hn : (bp.currentBatch ++ [req]).length ≥ BATCH_SIZE := by
    simp only [List.length_append, List.length_singleton]; omega
  cases bp with
  | mk cb m tm wp db pc =>
    simp only at hfree hn ht
    subst hfree
    subst ht
    simp only [BatchProcessor.AddRequest, Bool.false_eq_true, if_false, hn, if_true]

theorem AddRequest_currentBatch (bp : BatchProcessor) (req : SwapRequest)
    (hfree : bp.batchMutex = false) :
    (bp.AddRequest req).1.currentBatch = bp.currentBatch ++ [req] ∧
    (bp.AddRequest req).1.batchMutex = false := by
  by_cases hlt : bp.currentBatch.length + 1 < BATCH_SIZE
  · rw [AddRequest_below bp req hfree hlt]; exact ⟨rfl, hfree⟩
  · cases ht : bp.batchTimer with
    | none => rw [AddRequest_no_timer bp req hfree (by omega) ht]; exact ⟨rfl, hfree⟩
    | some t => rw [AddRequest_full bp req t hfree (by omega) ht]; exact ⟨rfl, hfree⟩

theorem processBatch_outcome (keccak256 : List Nat → List (Fin 256)) (bp : BatchProcessor)
    (envs : Int → DispatchEnv) : (bp.processBatch keccak256 envs).2 = .blocked := by
  cases hm : bp.batchMutex with
  | true => rw [processBatch_held keccak256 bp envs hm]
  | false => rw [processBatch_blocks keccak256 bp envs hm]

/-- An iteration of `processLoop` never returns: it waits for a signal, or it
takes the signal and parks inside `processBatch`. -/
theorem processLoop_outcome (keccak256 : List Nat → List (Fin 256)) (bp : BatchProcessor)
    (envs : Int → DispatchEnv) : (bp.processLoop keccak256 envs).2 = .blocked := by
  unfold BatchProcessor.processLoop
  cases bp.processChan with
  | true => simp only [if_true]; exact processBatch_outcome keccak256 _ envs
  | false => rfl

/-- A close step leaves the state as it is, or takes the signal and the mutex;
the open batch, the timer, the pool and the store are as before. -/
theorem step_close_eq (keccak256 : List Nat → List (Fin 256)) (bp : BatchProcessor)
    (envs : Int → DispatchEnv) :
    bp.step keccak256 (Step.close envs) = bp ∨
    bp.step keccak256 (Step.close envs)
      = { bp with processChan := false, batchMutex := true } := by
  unfold BatchProcessor.step BatchProcessor.processLoop
  cases hm : bp.batchMutex with
  | true => exact Or.inl (by simp)
  | false =>
    cases hc : bp.processChan with
    | false => exact Or.inl (by simp)
    | true =>
      refine Or.inr ?_
      simp only [Bool.false_eq_true, if_false, if_true]
      rw [processBatch_blocks keccak256 _ envs rfl]

/-- The expiry of the timer leaves the state as it is, or marks the timer as
fired and buffers a signal. -/
theorem timerExpires_eq (bp : BatchProcessor) (t : Timer) (ht : bp.batchTimer = some t) :
    bp.timerExpires = bp ∨
    bp.timerExpires
      = { bp with batchTimer := some { t with fired := true }, processChan := true } := by
  unfold BatchProcessor.timerExpires
  rw [ht]
  by_cases hs : (t.stopped || t.fired) = true
  · exact Or.inl (by simp only [hs, if_true])
  · refine Or.inr ?_
    simp only [hs, if_false, Bool.false_eq_true]
    rw [triggerProcess_eq]

/-! ## Admission: validation -/

/-- C1. With a present amount, `validateSwapRequest` accepts a request exactly
when its source chain is one of the two configured chains, its destination
chain is one of the two configured chains, the two differ and the amount is
strictly positive; the token-address and recipient checks always pass. -/
theorem validateSwapRequest_accepts_iff (keccak256 : List Nat → List (Fin 256))
    (config : Config) (req : SwapRequest) (amount : Int) (hamount : req.Amount = some amount) :
    (validateSwapRequest keccak256 config req = .ok () ↔
      (req.FromChainID = config.Chain1ID ∨ req.FromChainID = config.Chain2ID) ∧
      (req.ToChainID = config.Chain1ID ∨ req.ToChainID = config.Chain2ID) ∧
      req.FromChainID ≠ req.ToChainID ∧ 0 < amount) ∧
    IsHexAddress (Address.Hex keccak256 req.TokenAddress) = true ∧
    IsHexAddress (Address.Hex keccak256 req.Recipient) = true := by
  refine ⟨?_, IsHexAddress_Hex _ _, IsHexAddress_Hex _ _⟩
  unfold validateSwapRequest
  simp only [hamount, IsHexAddress_Hex, Bool.not_true, Bool.false_eq_true, if_false]
  by_cases h1 : req.FromChainID ≠ config.Chain1ID ∧ req.FromChainID ≠ config.Chain2ID
  · rw [if_pos h1]
    constructor
    · intro h; cases h
    · rintro ⟨h | h, -⟩
      · exact absurd h h1.1
      · exact absurd h h1.2
  · rw [if_neg h1]
    by_cases h2 : req.ToChainID ≠ config.Chain1ID ∧ req.ToChainID ≠ config.Chain2ID
    · rw [if_pos h2]
      constructor
      · intro h; cases h
      · rintro ⟨-, h | h, -⟩
        · exact absurd h h2.1
        · exact absurd h h2.2
    · rw [if_neg h2]
      by_cases h3 : req.FromChainID = req.ToChainID
      · rw [if_pos h3]
        constructor
        · intro h; cases h
        · rintro ⟨-, -, h, -⟩; exact absurd h3 h
      · rw [if_neg h3]
        have hcmp : Cmp amount 0 ≤ 0 ↔ amount ≤ 0 := by
          unfold Cmp
          by_cases ha : amount < 0
          · simp [ha]; omega
          · by_cases hb : amount = 0
            · simp [hb]
            · simp [ha, hb]; omega
        by_cases h4 : Cmp amount 0 ≤ 0
        · rw [if_pos h4]
          constructor
          · intro h; cases h
          · rintro ⟨-, -, -, h⟩
            have := hcmp.1 h4
            omega
        · rw [if_neg h4]
          simp only [true_iff]
          have hpos : 0 < amount := by
            have := mt hcmp.2 h4
            omega
          refine ⟨?_, ?_, h3, hpos⟩
          · by_contra hc; exact h1 (not_or.1 hc)
          · by_contra hc; exact h2 (not_or.1 hc)

/-- Witness of C1: the swap of the first scenario is accepted on the
configuration of `cmd/main.go`. -/
theorem validateSwapRequest_accepts_iff_witness :
    validateSwapRequest zeroDigest mainConfig sampleRequest = .ok () :=
  (validateSwapRequest_accepts_iff zeroDigest mainConfig sampleRequest 1000 rfl).1.2
    ⟨Or.inl rfl, Or.inr rfl, by decide, by decide⟩

/-! ## Admission: a rejected request writes nothing -/

/-- C2. When validation returns an error, `InitiateSwap` returns that error and
the service is unchanged: the store has no new swap row and the open batch has
no new request. -/
theorem InitiateSwap_rejected_unchanged (keccak256 : List Nat → List (Fin 256))
    (s : BridgeService) (req : SwapRequest) (now now2 : Int) (reply : InsertReply)
    (msg : String) (hrej : validateSwapRequest keccak256 s.config req = .error msg) :
    s.InitiateSwap keccak256 req now now2 reply = (s, .error msg) ∧
    (s.InitiateSwap keccak256 req now now2 reply).1.batchProcessor.db.swaps
      = s.batchProcessor.db.swaps ∧
    (s.InitiateSwap keccak256 req now now2 reply).1.batchProcessor.currentBatch
      = s.batchProcessor.currentBatch := by
  have h : s.InitiateSwap keccak256 req now now2 reply = (s, .error msg) := by
    unfold BridgeService.InitiateSwap
    rw [hrej]
  rw [h]
  exact ⟨rfl, rfl, rfl⟩

/-- Witness of C2: a swap from chain 1 to chain 1 is rejected and leaves the
service as it was. -/
theorem InitiateSwap_rejected_unchanged_witness :
    sampleService.InitiateSwap zeroDigest sameChainRequest 5 6 (.written 1 5 5 none)
      = (sampleService, .error "source and destination chains must be different") :=
  (InitiateSwap_rejected_unchanged zeroDigest sampleService sameChainRequest 5 6
    (.written 1 5 5 none) "source and destination chains must be different" (by decide)).1

/-! ## The aggregator: admission into the open batch -/

/-- C3, counterexample. After the timer has expired and `processLoop` has taken
the signal, the loop is parked inside `processBatch` with the mutex held; in
that state `AddRequest` parks as well and appends nothing: the open batch is
still empty. And on a processor without a timer the 50th admission panics in
`Stop` and buffers no signal. -/
theorem AddRequest_appends_nothing_after_close :
    ((NewBatchProcessor twoWalletPool emptyDb).run zeroDigest
        [Step.timeout, Step.close (fun _ => sampleEnv)]).batchMutex = true ∧
    (((NewBatchProcessor twoWalletPool emptyDb).run zeroDigest
        [Step.timeout, Step.close (fun _ => sampleEnv)]).AddRequest sampleRequest).2
      = .blocked ∧
    (((NewBatchProcessor twoWalletPool emptyDb).run zeroDigest
        [Step.timeout, Step.close (fun _ => sampleEnv)]).AddRequest sampleRequest).1.currentBatch
      = [] ∧
    (((NewBatchProcessor twoWalletPool emptyDb).run zeroDigest
        [Step.timeout, Step.close (fun _ => sampleEnv)]).AddRequest sampleRequest).1.currentBatch
      ≠ ((NewBatchProcessor twoWalletPool emptyDb).run zeroDigest
          [Step.timeout, Step.close (fun _ => sampleEnv)]).currentBatch ++ [sampleRequest] ∧
    (timerlessProcessor.AddRequest sampleRequest).2 = .panic ∧
    (timerlessProcessor.AddRequest sampleRequest).1.processChan = false := by
  refine ⟨by decide, by decide, by decide, by decide, by decide, by decide⟩

/-- C3, amended. With the mutex free, `AddRequest` appends the request at the
end of the open batch. If the new length equals `BATCH_SIZE` (and a timer is
installed), it returns with the timer stopped and a signal buffered on the
process channel. If the new length is below `BATCH_SIZE`, the only change is
the appended request: the timer and the process channel are as before. -/
theorem AddRequest_appends_and_signals (bp : BatchProcessor) (req : SwapRequest)
    (hfree : bp.batchMutex = false) :
    (bp.AddRequest req).1.currentBatch = bp.currentBatch ++ [req] ∧
    (bp.currentBatch.length + 1 = BATCH_SIZE → ∀ t, bp.batchTimer = some t →
      (bp.AddRequest req).2 = .ok () ∧
      (bp.AddRequest req).1.batchTimer = some { t with stopped := true } ∧
      (bp.AddRequest req).1.processChan = true ∧
      (bp.AddRequest req).1.batchMutex = false) ∧
    (bp.currentBatch.length + 1 < BATCH_SIZE →
      bp.AddRequest req = ({ bp with currentBatch := bp.currentBatch ++ [req] }, .ok ()) ∧
      (bp.AddRequest req).1.batchTimer = bp.batchTimer ∧
      (bp.AddRequest req).1.processChan = bp.processChan) := by
  refine ⟨(AddRequest_currentBatch bp req hfree).1, ?_, ?_⟩
  · intro hlen t ht
    rw [AddRequest_full bp req t hfree (by omega) ht]
    exact ⟨rfl, rfl, rfl, hfree⟩
  · intro hlen
    rw [AddRequest_below bp req hfree hlen]
    exact ⟨rfl, rfl, rfl⟩

/-- Witness of C3: the 50th admission stops the timer and buffers a signal; the
first admission into a fresh aggregator does neither. -/
theorem AddRequest_appends_and_signals_witness :
    ((almostFullProcessor.AddRequest sampleRequest).1.batchTimer
        = some { d := BATCH_TIMEOUT, stopped := true, fired := false } ∧
      (almostFullProcessor.AddRequest sampleRequest).1.processChan = true) ∧
    ((NewBatchProcessor twoWalletPool emptyDb).AddRequest sampleRequest).1.processChan
      = false :=
  ⟨⟨((AddRequest_appends_and_signals almostFullProcessor sampleRequest rfl).2.1
        (by decide) { d := BATCH_TIMEOUT, stopped := false, fired := false } rfl).2.1,
    ((AddRequest_appends_and_signals almostFullProcessor sampleRequest rfl).2.1
        (by decide) { d := BATCH_TIMEOUT, stopped := false, fired := false } rfl).2.2.1⟩,
   ((AddRequest_appends_and_signals (NewBatchProcessor twoWalletPool emptyDb) sampleRequest
        rfl).2.2 (by decide)).2.2⟩

/-! ## The aggregator: size of the open batch -/

theorem AggregatorInv_step (keccak256 : List Nat → List (Fin 256)) (bp : BatchProcessor)
    (st : Step) (hinv : AggregatorInv bp) : AggregatorInv (bp.step keccak256 st) := by
  obtain ⟨t, ht, hsize⟩ := hinv
  cases st with
  | close envs =>
    rcases step_close_eq keccak256 bp envs with h | h
    · rw [h]; exact ⟨t, ht, hsize⟩
    · rw [h]; exact ⟨t, ht, hsize⟩
  | timeout =>
    simp only [BatchProcessor.step]
    rcases timerExpires_eq bp t ht with h | h
    · rw [h]; exact ⟨t, ht, hsize⟩
    · rw [h]; exact ⟨{ t with fired := true }, rfl, hsize⟩
  | add req =>
    simp only [BatchProcessor.step]
    cases hm : bp.batchMutex with
    | true =>
      rw [AddRequest_held bp req hm]
      exact ⟨t, ht, hsize⟩
    | false =>
      by_cases hlt : bp.currentBatch.length + 1 < BATCH_SIZE
      · rw [AddRequest_below bp req hm hlt]
        refine ⟨t, ht, Or.inl ?_⟩
        simp only [List.length_append, List.length_singleton]
        exact hlt
      · rw [AddRequest_full bp req t hm (by omega) ht]
        exact ⟨{ t with stopped := true }, rfl, Or.inr rfl⟩

theorem AggregatorInv_run (keccak256 : List Nat → List (Fin 256)) (steps : List Step) :
    ∀ bp : BatchProcessor, AggregatorInv bp → AggregatorInv (bp.run keccak256 steps) := by
  induction steps with
  | nil => intro bp h; exact h
  | cons st rest ih =>
    intro bp h
    exact ih (bp.step keccak256 st) (AggregatorInv_step keccak256 bp st h)

theorem run_adds_length (keccak256 : List Nat → List (Fin 256)) (req : SwapRequest) (n : Nat) :
    ∀ bp : BatchProcessor, bp.batchMutex = false →
      ((bp.run keccak256 (List.replicate n (Step.add req))).currentBatch.length
          = bp.currentBatch.length + n) ∧
      (bp.run keccak256 (List.replicate n (Step.add req))).batchMutex = false := by
  induction n with
  | zero => intro bp h; exact ⟨rfl, h⟩
  | succ n ih =>
    intro bp h
    have hrun : bp.run keccak256 (List.replicate (n + 1) (Step.add req))
        = ((bp.AddRequest req).1).run keccak256 (List.replicate n (Step.add req)) := rfl
    have hlen : ((bp.AddRequest req).1).currentBatch.length = bp.currentBatch.length + 1 := by
      rw [(AddRequest_currentBatch bp req h).1]; simp
    have hfree : ((bp.AddRequest req).1).batchMutex = false :=
      (AddRequest_currentBatch bp req h).2
    have := ih _ hfree
    rw [hrun]
    exact ⟨by omega, this.2⟩

/-- C4, counterexample. After 51 admissions into a fresh aggregator, with no
run of `processBatch` in between, the open batch holds 51 requests, more than
`BATCH_SIZE`. -/
theorem open_batch_exceeds_BATCH_SIZE :
    ((NewBatchProcessor twoWalletPool emptyDb).run zeroDigest
        (List.replicate 51 (Step.add sampleRequest))).currentBatch.length = 51 ∧
    ¬ ((NewBatchProcessor twoWalletPool emptyDb).run zeroDigest
        (List.replicate 51 (Step.add sampleRequest))).currentBatch.length ≤ BATCH_SIZE := by
  have h := (run_adds_length zeroDigest sampleRequest 51
    (NewBatchProcessor twoWalletPool emptyDb) rfl).1
  have h0 : (NewBatchProcessor twoWalletPool emptyDb).currentBatch.length = 0 := rfl
  rw [h0] at h
  refine ⟨by omega, ?_⟩
  unfold BATCH_SIZE
  omega

/-- C4, amended. In every state reached from `NewBatchProcessor` by calls of
`AddRequest`, expiries of the timer and iterations of `processLoop`, a timer is
installed and the open batch holds fewer than `BATCH_SIZE` requests unless the
timer has been stopped, which only the size trigger of `AddRequest` does. -/
theorem open_batch_below_BATCH_SIZE_or_timer_stopped
    (keccak256 : List Nat → List (Fin 256)) (walletPool : WalletPool) (db : Database)
    (steps : List Step) :
    ∃ t, ((NewBatchProcessor walletPool db).run keccak256 steps).batchTimer = some t ∧
      (((NewBatchProcessor walletPool db).run keccak256 steps).currentBatch.length < BATCH_SIZE ∨
        t.stopped = true) := by
  have hinit : AggregatorInv (NewBatchProcessor walletPool db) := by
    refine ⟨_, rfl, Or.inl ?_⟩
    have h0 : (NewBatchProcessor walletPool db).currentBatch.length = 0 := rfl
    rw [h0]
    decide
  exact AggregatorInv_run keccak256 steps _ hinit

/-! ## The aggregator: the close step -/

/-- C5, the code at a fresh aggregator and at one that holds a request. The
close step does not run to completion: `processBatch` takes the mutex and parks
in `startNewBatch`; the open batch and the timer are not replaced, the mutex
stays held, and a later `AddRequest` parks as well. -/
theorem processBatch_self_deadlock (keccak256 : List Nat → List (Fin 256))
    (walletPool : WalletPool) (db : Database) (envs : Int → DispatchEnv) (req : SwapRequest) :
    (NewBatchProcessor walletPool db).batchMutex = false ∧
    ((NewBatchProcessor walletPool db).processBatch keccak256 envs).2 = .blocked ∧
    ((NewBatchProcessor walletPool db).processBatch keccak256 envs).1.batchMutex = true ∧
    (((NewBatchProcessor walletPool db).processBatch keccak256 envs).1.AddRequest req).2
      = .blocked ∧
    ((((NewBatchProcessor walletPool db).AddRequest req).1).processBatch keccak256 envs).2
      = .blocked ∧
    ((((NewBatchProcessor walletPool db).AddRequest req).1).processBatch keccak256
      envs).1.currentBatch = [req] ∧
    ((((NewBatchProcessor walletPool db).AddRequest req).1).processBatch keccak256
      envs).1.batchMutex = true := by
  have hfree : (NewBatchProcessor walletPool db).batchMutex = false := rfl
  have hadd : ((NewBatchProcessor walletPool db).AddRequest req).1
      = { NewBatchProcessor walletPool db with currentBatch := [req] } := by
    have hlt : (NewBatchProcessor walletPool db).currentBatch.length + 1 < BATCH_SIZE := by
      have h0 : (NewBatchProcessor walletPool db).currentBatch.length = 0 := rfl
      rw [h0]; decide
    rw [AddRequest_below (NewBatchProcessor walletPool db) req hfree hlt]
    rfl
  rw [hadd, processBatch_blocks keccak256 _ envs hfree,
    processBatch_blocks keccak256 _ envs (by rfl)]
  refine ⟨rfl, rfl, rfl, ?_, rfl, rfl, rfl⟩
  rw [AddRequest_held _ req rfl]

/-! ## The grouping step -/

theorem mapGet_mapSet (m : List (Int × List SwapRequest)) (k : Int) (v : List SwapRequest)
    (c : Int) : mapGet (mapSet m k v) c = if k = c then v else mapGet m c := by
  induction m with
  | nil => simp [mapSet, mapGet]
  | cons e rest ih =>
    obtain ⟨k1, v1⟩ := e
    by_cases h1 : k1 = k
    · subst h1
      by_cases h2 : k1 = c <;> simp [mapSet, mapGet, h2]
    · by_cases h2 : k1 = c
      · subst h2
        simp [mapSet, mapGet, h1, Ne.symm h1]
      · simp [mapSet, mapGet, h1, h2, ih]

theorem keys_mapSet (m : List (Int × List SwapRequest)) (k : Int) (v : List SwapRequest) :
    (mapSet m k v).map Prod.fst
      = if k ∈ m.map Prod.fst then m.map Prod.fst else m.map Prod.fst ++ [k] := by
  induction m with
  | nil => simp [mapSet]
  | cons e rest ih =>
    obtain ⟨k1, v1⟩ := e
    by_cases h1 : k1 = k
    · subst h1
      simp [mapSet]
    · have h1b : ¬ k = k1 := fun h => h1 h.symm
      by_cases h2 : k ∈ rest.map Prod.fst
      · rw [if_pos h2] at ih
        have hmem : k ∈ ((k1, v1) :: rest).map Prod.fst := by
          simp only [List.map_cons, List.mem_cons]; exact Or.inr h2
        rw [if_pos hmem]
        simp only [mapSet, h1, if_false, List.map_cons, ih]
      · rw [if_neg h2] at ih
        have hmem : ¬ k ∈ ((k1, v1) :: rest).map Prod.fst := by
          simp only [List.map_cons, List.mem_cons, not_or]; exact ⟨h1b, h2⟩
        rw [if_neg hmem]
        simp only [mapSet, h1, if_false, List.map_cons, ih, List.cons_append]

theorem mapGet_of_mem (m : List (Int × List SwapRequest))
    (hnd : (m.map Prod.fst).Nodup) (c : Int) (part : List SwapRequest)
    (hmem : (c, part) ∈ m) : mapGet m c = part := by
  induction m with
  | nil => simp at hmem
  | cons e rest ih =>
    obtain ⟨k1, v1⟩ := e
    simp only [List.map_cons, List.nodup_cons] at hnd
    simp only [List.mem_cons, Prod.mk.injEq] at hmem
    rcases hmem with ⟨hc, hp⟩ | hin
    · subst hc; subst hp; simp [mapGet]
    · have hne : k1 ≠ c := by
        intro h
        subst h
        exact hnd.1 (List.mem_map_of_mem Prod.fst hin)
      simp only [mapGet, hne, if_false]
      exact ih hnd.2 hin

theorem mem_mapGet_of_key (m : List (Int × List SwapRequest)) (c : Int)
    (hkey : c ∈ m.map Prod.fst) : (c, mapGet m c) ∈ m := by
  induction m with
  | nil => simp at hkey
  | cons e rest ih =>
    obtain ⟨k1, v1⟩ := e
    by_cases h1 : k1 = c
    · subst h1; simp [mapGet]
    · simp only [List.map_cons, List.mem_cons] at hkey
      rcases hkey with h | h
      · exact absurd h.symm h1
      · simp only [mapGet, h1, if_false]
        exact List.mem_cons_of_mem _ (ih h)

theorem GroupInv_step (m : List (Int × List SwapRequest)) (seen : List SwapRequest)
    (req : SwapRequest) (hinv : GroupInv m seen) :
    GroupInv (mapSet m req.FromChainID (mapGet m req.FromChainID ++ [req])) (seen ++ [req]) := by
  obtain ⟨hnd, hget, hkeys⟩ := hinv
  refine ⟨?_, ?_, ?_⟩
  · rw [keys_mapSet]
    by_cases hk : req.FromChainID ∈ m.map Prod.fst
    · rw [if_pos hk]; exact hnd
    · rw [if_neg hk]
      rw [List.nodup_append]
      refine ⟨hnd, List.nodup_singleton _, ?_⟩
      intro a ha hb
      simp only [List.mem_singleton] at hb
      subst hb
      exact hk ha
  · intro c
    rw [mapGet_mapSet, List.filter_append]
    by_cases hc : req.FromChainID = c
    · rw [if_pos hc, hget]
      subst hc
      simp
    · rw [if_neg hc, hget]
      simp [hc]
  · intro c
    rw [keys_mapSet]
    by_cases hk : req.FromChainID ∈ m.map Prod.fst
    · rw [if_pos hk, hkeys]
      constructor
      · rintro ⟨r, hr, hrc⟩
        exact ⟨r, List.mem_append_left _ hr, hrc⟩
      · rintro ⟨r, hr, hrc⟩
        rcases List.mem_append.1 hr with h | h
        · exact ⟨r, h, hrc⟩
        · simp only [List.mem_singleton] at h
          subst h
          subst hrc
          exact (hkeys _).1 hk
    · rw [if_neg hk, List.mem_append, hkeys]
      constructor
      · rintro (⟨r, hr, hrc⟩ | h)
        · exact ⟨r, List.mem_append_left _ hr, hrc⟩
        · simp only [List.mem_singleton] at h
          exact ⟨req, List.mem_append_right _ (List.mem_singleton_self _), h.symm⟩
      · rintro ⟨r, hr, hrc⟩
        rcases List.mem_append.1 hr with h | h
        · exact Or.inl ⟨r, h, hrc⟩
        · simp only [List.mem_singleton] at h
          subst h
          exact Or.inr (List.mem_singleton.2 hrc.symm)

theorem GroupInv_foldl (rest : List SwapRequest) :
    ∀ (m : List (Int × List SwapRequest)) (seen : List SwapRequest), GroupInv m seen →
      GroupInv
        (rest.foldl
          (fun chainBatches req =>
            mapSet chainBatches req.FromChainID (mapGet chainBatches req.FromChainID ++ [req]))
          m)
        (seen ++ rest) := by
  induction rest with
  | nil => intro m seen h; simpa using h
  | cons req rest ih =>
    intro m seen h
    have := ih _ _ (GroupInv_step m seen req h)
    simpa using this

theorem GroupInv_groupByChain (batch : List SwapRequest) :
    GroupInv (groupByChain batch) batch := by
  have h0 : GroupInv [] [] := by
    refine ⟨List.nodup_nil, fun c => rfl, fun c => ?_⟩
    simp
  have := GroupInv_foldl batch [] [] h0
  simpa [groupByChain] using this

/-- C6. The grouping step of `processBatch` yields one entry per chain id
(distinct keys) such that every partition is non-empty, every request of the
partition keyed `c` has `FromChainID = c`, the partition keyed `c` is exactly
the requests of the batch with that chain in admission order (so it is a
sublist of the batch and holds each of its requests as often as the batch
does), and every request of the batch lies in the partition of its chain and in
no other. -/
theorem groupByChain_partitions (batch : List SwapRequest) :
    ((groupByChain batch).map Prod.fst).Nodup ∧
    (∀ c part, (c, part) ∈ groupByChain batch →
      part ≠ [] ∧
      (∀ r ∈ part, r.FromChainID = c) ∧
      part = batch.filter (fun r => decide (r.FromChainID = c)) ∧
      part.Sublist batch ∧
      (∀ r, r.FromChainID = c → part.count r = batch.count r)) ∧
    (∀ r ∈ batch, ∃ part, (r.FromChainID, part) ∈ groupByChain batch ∧
      r ∈ part ∧ part.count r = batch.count r ∧
      ∀ c2 part2, (c2, part2) ∈ groupByChain batch → r ∈ part2 →
        c2 = r.FromChainID ∧ part2 = part) := by
  obtain ⟨hnd, hget, hkeys⟩ := GroupInv_groupByChain batch
  have hpart : ∀ c part, (c, part) ∈ groupByChain batch →
      part = batch.filter (fun r => decide (r.FromChainID = c)) := by
    intro c part hmem
    rw [← hget c]
    exact (mapGet_of_mem _ hnd c part hmem).symm
  refine ⟨hnd, ?_, ?_⟩
  · intro c part hmem
    have hp := hpart c part hmem
    have hkey : c ∈ (groupByChain batch).map Prod.fst :=
      List.mem_map_of_mem Prod.fst hmem
    obtain ⟨r0, hr0, hr0c⟩ := (hkeys c).1 hkey
    refine ⟨?_, ?_, hp, ?_, ?_⟩
    · intro hnil
      have : r0 ∈ part := by
        rw [hp, List.mem_filter]
        exact ⟨hr0, by simpa using hr0c⟩
      rw [hnil] at this
      simp at this
    · intro r hr
      rw [hp, List.mem_filter] at hr
      simpa using hr.2
    · rw [hp]; exact List.filter_sublist _
    · intro r hr
      rw [hp]
      exact List.count_filter (by simpa using hr)
  · intro r hr
    have hkey : r.FromChainID ∈ (groupByChain batch).map Prod.fst :=
      (hkeys _).2 ⟨r, hr, rfl⟩
    have hmem := mem_mapGet_of_key _ _ hkey
    have hp := hpart _ _ hmem
    refine ⟨_, hmem, ?_, ?_, ?_⟩
    · rw [hp, List.mem_filter]
      exact ⟨hr, by simp⟩
    · rw [hp]
      exact List.count_filter (by simp)
    · intro c2 part2 hmem2 hr2
      have hp2 := hpart c2 part2 hmem2
      have hc2 : c2 = r.FromChainID := by
        rw [hp2, List.mem_filter] at hr2
        have : r.FromChainID = c2 := by simpa using hr2.2
        exact this.symm
      subst hc2
      exact ⟨rfl, by rw [hp2, hp]⟩

/-! ## The wallet pool -/

theorem selectLoop_spec (ws : List Wallet) :
    ∀ (i : Nat) (selected : Option Nat) (oldest : Int),
      (∀ (k : Nat) (w2 : Wallet), ws[k]? = some w2 → w2.IsProcessing = false →
        (selectLoop ws i selected oldest).2 ≤ w2.LastUsed) ∧
      (selectLoop ws i selected oldest).2 ≤ oldest ∧
      (selectLoop ws i selected oldest = (selected, oldest) ∨
        ∃ j w, (selectLoop ws i selected oldest).1 = some (i + j) ∧ ws[j]? = some w ∧
          w.IsProcessing = false ∧ w.LastUsed = (selectLoop ws i selected oldest).2 ∧
          (selectLoop ws i selected oldest).2 < oldest ∧
          ∀ (k : Nat) (w2 : Wallet), k < j → ws[k]? = some w2 → w2.IsProcessing = false →
            (selectLoop ws i selected oldest).2 < w2.LastUsed) := by
  induction ws with
  | nil =>
    intro i selected oldest
    refine ⟨fun k w2 h => by simp at h, le_refl _, Or.inl rfl⟩
  | cons w rest ih =>
    intro i selected oldest
    by_cases hsel : (!w.IsProcessing && decide (w.LastUsed < oldest)) = true
    · have hstep : selectLoop (w :: rest) i selected oldest
          = selectLoop rest (i + 1) (some i) w.LastUsed := by
        simp only [selectLoop, hsel, if_true]
      rw [hstep]
      simp only [Bool.and_eq_true, Bool.not_eq_true', decide_eq_true_eq] at hsel
      obtain ⟨hfree, hlt⟩ := hsel
      obtain ⟨hmin, hle, hcase⟩ := ih (i + 1) (some i) w.LastUsed
      refine ⟨?_, by omega, Or.inr ?_⟩
      · intro k w2 hk hf
        cases k with
        | zero =>
          simp only [List.getElem?_cons_zero, Option.some.injEq] at hk
          subst hk
          exact hle
        | succ k =>
          simp only [List.getElem?_cons_succ] at hk
          exact hmin k w2 hk hf
      · rcases hcase with heq | ⟨j, wj, hres, hget, hjf, hjl, hjlt, hbefore⟩
        · refine ⟨0, w, ?_, by simp, hfree, ?_, ?_, ?_⟩
          · simp [heq]
          · simp [heq]
          · rw [heq]; exact hlt
          · intro k w2 hk
            omega
        · refine ⟨j + 1, wj, ?_, ?_, hjf, hjl, by omega, ?_⟩
          · rw [hres]; congr 1; omega
          · simpa using hget
          · intro k w2 hk hget2 hf
            cases k with
            | zero =>
              simp only [List.getElem?_cons_zero, Option.some.injEq] at hget2
              subst hget2
              exact hjlt
            | succ k =>
              simp only [List.getElem?_cons_succ] at hget2
              exact hbefore k w2 (by omega) hget2 hf
    · have hstep : selectLoop (w :: rest) i selected oldest
          = selectLoop rest (i + 1) selected oldest := by
        simp only [selectLoop, hsel, if_false]
        simp
      rw [hstep]
      have hhead : w.IsProcessing = false → oldest ≤ w.LastUsed := by
        intro hf
        simp only [Bool.and_eq_true, Bool.not_eq_true', decide_eq_true_eq, not_and] at hsel
        have := hsel hf
        omega
      obtain ⟨hmin, hle, hcase⟩ := ih (i + 1) selected oldest
      refine ⟨?_, hle, ?_⟩
      · intro k w2 hk hf
        cases k with
        | zero =>
          simp only [List.getElem?_cons_zero, Option.some.injEq] at hk
          subst hk
          exact le_trans hle (hhead hf)
        | succ k =>
          simp only [List.getElem?_cons_succ] at hk
          exact hmin k w2 hk hf
      · rcases hcase with heq | ⟨j, wj, hres, hget, hjf, hjl, hjlt, hbefore⟩
        · exact Or.inl heq
        · refine Or.inr ⟨j + 1, wj, ?_, ?_, hjf, hjl, hjlt, ?_⟩
          · rw [hres]; congr 1; omega
          · simpa using hget
          · intro k w2 hk hget2 hf
            cases k with
            | zero =>
              simp only [List.getElem?_cons_zero, Option.some.injEq] at hget2
              subst hget2
              exact lt_of_lt_of_le hjlt (hhead hf)
            | succ k =>
              simp only [List.getElem?_cons_succ] at hget2
              exact hbefore k w2 (by omega) hget2 hf

theorem getAvailableWallet_some (wp : WalletPool) (now stamp : Int) (i : Nat)
    (hlease : (wp.getAvailableWallet now stamp).2 = some i) :
    (selectLoop wp.wallets 0 none now).1 = some i ∧
    (wp.getAvailableWallet now stamp).1
      = { wallets := wp.wallets.modify
            (fun wallet => { wallet with IsProcessing := true, LastUsed := stamp }) i } := by
  unfold WalletPool.getAvailableWallet at hlease ⊢
  cases hsel : (selectLoop wp.wallets 0 none now).1 with
  | none => rw [hsel] at hlease; simp at hlease
  | some j =>
    rw [hsel] at hlease
    simp only [Option.some.injEq] at hlease
    subst hlease
    exact ⟨rfl, rfl⟩

theorem getAvailableWallet_none (wp : WalletPool) (now stamp : Int)
    (hlease : (wp.getAvailableWallet now stamp).2 = none) :
    (wp.getAvailableWallet now stamp).1 = wp := by
  unfold WalletPool.getAvailableWallet at hlease ⊢
  cases hsel : (selectLoop wp.wallets 0 none now).1 with
  | none => rfl
  | some j => rw [hsel] at hlease; simp at hlease

theorem getAvailableWallet_spec (wp : WalletPool) (now stamp : Int) (i : Nat)
    (hlease : (wp.getAvailableWallet now stamp).2 = some i) :
    ∃ w, wp.wallets[i]? = some w ∧ w.IsProcessing = false ∧ w.LastUsed < now ∧
      (∀ (k : Nat) (w2 : Wallet), wp.wallets[k]? = some w2 → w2.IsProcessing = false →
        w.LastUsed ≤ w2.LastUsed) ∧
      (∀ (k : Nat) (w2 : Wallet), k < i → wp.wallets[k]? = some w2 → w2.IsProcessing = false →
        w.LastUsed < w2.LastUsed) := by
  have hsel := (getAvailableWallet_some wp now stamp i hlease).1
  obtain ⟨hmin, -, hcase⟩ := selectLoop_spec wp.wallets 0 none now
  rcases hcase with heq | ⟨j, w, hres, hget, hf, hl, hlt, hbefore⟩
  · rw [heq] at hsel; simp at hsel
  · rw [hres] at hsel
    simp only [zero_add, Option.some.injEq] at hsel
    subst hsel
    refine ⟨w, hget, hf, by omega, ?_, ?_⟩
    · intro k w2 hk hf2; rw [hl]; exact hmin k w2 hk hf2
    · intro k w2 hk hget2 hf2; rw [hl]; exact hbefore k w2 hk hget2 hf2

theorem InUse_modify_other (wp : WalletPool) (f : Wallet → Wallet) (i j : Nat)
    (hkeep : j = i → ∀ w, w.IsProcessing = true → (f w).IsProcessing = true)
    (h : InUse wp i) : InUse { wallets := wp.wallets.modify f j } i := by
  obtain ⟨w, hget, hflag⟩ := h
  unfold InUse
  simp only [List.getElem?_modify, hget, Option.map_eq_map, Option.map_some']
  by_cases hji : j = i
  · exact ⟨f w, by simp [hji], hkeep hji w hflag⟩
  · exact ⟨w, by simp [hji], hflag⟩

theorem InUse_step (wp : WalletPool) (op : PoolOp) (i : Nat)
    (hop : op ≠ PoolOp.release i) (h : InUse wp i) : InUse (wp.step op) i := by
  cases op with
  | lease now stamp =>
    simp only [WalletPool.step]
    cases hres : (wp.getAvailableWallet now stamp).2 with
    | none => rw [getAvailableWallet_none wp now stamp hres]; exact h
    | some j =>
      rw [(getAvailableWallet_some wp now stamp j hres).2]
      exact InUse_modify_other wp _ i j (fun _ _ _ => rfl) h
  | release j =>
    have hji : j ≠ i := fun hc => hop (by rw [hc])
    simp only [WalletPool.step, WalletPool.releaseWallet]
    exact InUse_modify_other wp _ i j (fun hc => absurd hc hji) h

theorem InUse_run (ops : List PoolOp) (i : Nat) (hops : PoolOp.release i ∉ ops) :
    ∀ wp : WalletPool, InUse wp i → InUse (wp.run ops) i := by
  induction ops with
  | nil => intro wp h; exact h
  | cons op rest ih =>
    intro wp h
    have hop : op ≠ PoolOp.release i := fun hc => hops (by rw [hc]; exact List.mem_cons_self _ _)
    have hrest : PoolOp.release i ∉ rest := fun hc => hops (List.mem_cons_of_mem _ hc)
    exact ih hrest _ (InUse_step wp op i hop h)

/-- C7. In any sequence of leases and releases on any pool: a lease that
returns wallet `i` found its `IsProcessing` flag false and leaves it true, and
after any further operations that do not release `i`, no lease returns `i`. -/
theorem lease_exclusive (wp : WalletPool) (before mid : List PoolOp)
    (now stamp now2 stamp2 : Int) (i : Nat)
    (hlease : ((wp.run before).getAvailableWallet now stamp).2 = some i)
    (hmid : PoolOp.release i ∉ mid) :
    (∃ w, (wp.run before).wallets[i]? = some w ∧ w.IsProcessing = false) ∧
    (∃ w, ((wp.run before).getAvailableWallet now stamp).1.wallets[i]? = some w ∧
      w.IsProcessing = true) ∧
    (((((wp.run before).getAvailableWallet now stamp).1).run mid).getAvailableWallet
      now2 stamp2).2 ≠ some i := by
  obtain ⟨w, hget, hfree, -⟩ := getAvailableWallet_spec _ now stamp i hlease
  have hafter : InUse ((wp.run before).getAvailableWallet now stamp).1 i := by
    rw [(getAvailableWallet_some _ now stamp i hlease).2]
    unfold InUse
    simp only [List.getElem?_modify, hget, Option.map_eq_map, Option.map_some']
    exact ⟨{ w with IsProcessing := true, LastUsed := stamp }, by simp, rfl⟩
  refine ⟨⟨w, hget, hfree⟩, hafter, ?_⟩
  intro hagain
  obtain ⟨w1, hget1, hflag1⟩ := InUse_run mid i hmid _ hafter
  obtain ⟨w2, hget2, hfree2, -⟩ := getAvailableWallet_spec _ now2 stamp2 i hagain
  rw [hget1] at hget2
  simp only [Option.some.injEq] at hget2
  subst hget2
  rw [hflag1] at hfree2
  cases hfree2

/-- Witness of C7: on two free wallets a lease returns wallet 0, and after a
second lease (no release), a third lease does not return wallet 0. -/
theorem lease_exclusive_witness :
    ((((twoWalletPool.run []).getAvailableWallet 10 11).1.run
      [PoolOp.lease 20 21]).getAvailableWallet 30 31).2 ≠ some 0 :=
  (lease_exclusive twoWalletPool [] [PoolOp.lease 20 21] 10 11 30 31 0 (by decide)
    (by decide)).2.2

/-- C8, counterexample. Wallets 0 and 1 of the pool are free with the same
`LastUsed`; the persisted record of wallet 0 is for chain 56 with 7 processed
batches, that of wallet 1 for chain 1 with none. The lease returns wallet 0,
and the dispatcher of a partition of chain 1 writes its batch under the address
of wallet 0. -/
theorem lease_ignores_chain_and_processed_batches :
    (twoWalletPool.getAvailableWallet 10 11).2 = some 0 ∧
    twoWalletPool.wallets.map
        (fun w => (Address.Hex zeroDigest w.Address, w.IsProcessing, w.LastUsed))
      = [(Address.Hex zeroDigest (constAddress 1), false, 0),
         (Address.Hex zeroDigest (constAddress 2), false, 0)] ∧
    twoWalletDb.hot_wallets.map (fun h => (h.Address, h.ChainID, h.TotalProcessedBatches))
      = [(Address.Hex zeroDigest (constAddress 1), 56, 7),
         (Address.Hex zeroDigest (constAddress 2), 1, 0)] ∧
    (dispatch zeroDigest twoWalletPool twoWalletDb 1 [sampleRequest] sampleEnv).2.batches.map
        (fun b => (b.WalletAddress, b.ChainID))
      = [(Address.Hex zeroDigest (constAddress 1), 1)] := by
  refine ⟨by decide, rfl, rfl, by decide⟩

/-- C8, amended. When a lease returns a wallet, that wallet was not in use, its
`LastUsed` is before the clock reading of the call and no later than the
`LastUsed` of every wallet that is not in use, and every not-in-use wallet that
stands earlier in the pool has a strictly later `LastUsed`: ties go to the
earliest wallet of the pool. -/
theorem lease_least_recently_used (wp : WalletPool) (now stamp : Int) (i : Nat)
    (hlease : (wp.getAvailableWallet now stamp).2 = some i) :
    ∃ w, wp.wallets[i]? = some w ∧ w.IsProcessing = false ∧ w.LastUsed < now ∧
      (∀ (k : Nat) (w2 : Wallet), wp.wallets[k]? = some w2 → w2.IsProcessing = false →
        w.LastUsed ≤ w2.LastUsed) ∧
      (∀ (k : Nat) (w2 : Wallet), k < i → wp.wallets[k]? = some w2 → w2.IsProcessing = false →
        w.LastUsed < w2.LastUsed) :=
  getAvailableWallet_spec wp now stamp i hlease

/-- Witness of C8: on the pool of a wallet last used at 5 and one last used at
3, the lease at time 10 returns the second. -/
theorem lease_least_recently_used_witness :
    ∃ w, staggeredPool.wallets[1]? = some w ∧ w.IsProcessing = false ∧ w.LastUsed < 10 ∧
      (∀ (k : Nat) (w2 : Wallet), staggeredPool.wallets[k]? = some w2 → w2.IsProcessing = false →
        w.LastUsed ≤ w2.LastUsed) ∧
      (∀ (k : Nat) (w2 : Wallet), k < 1 → staggeredPool.wallets[k]? = some w2 → w2.IsProcessing = false →
        w.LastUsed < w2.LastUsed) :=
  lease_least_recently_used staggeredPool 10 11 1 (by decide)

/-! ## The dispatcher -/

theorem dispatch_no_wallet (keccak256 : List Nat → List (Fin 256)) (walletPool : WalletPool)
    (db : Database) (cid : Int) (cbatch : List SwapRequest) (env : DispatchEnv)
    (hnone : (walletPool.getAvailableWallet env.now env.stamp).2 = none) :
    dispatch keccak256 walletPool db cid cbatch env = (walletPool, db) := by
  have hpool := getAvailableWallet_none walletPool env.now env.stamp hnone
  unfold dispatch
  cases hres : walletPool.getAvailableWallet env.now env.stamp with
  | mk pool1 o =>
    rw [hres] at hnone hpool
    simp only at hnone hpool
    subst hnone
    subst hpool
    rfl

theorem dispatch_leased (keccak256 : List Nat → List (Fin 256)) (walletPool : WalletPool)
    (db : Database) (cid : Int) (cbatch : List SwapRequest) (env : DispatchEnv) (i : Nat)
    (hlease : (walletPool.getAvailableWallet env.now env.stamp).2 = some i) :
    ∃ wallet, (walletPool.getAvailableWallet env.now env.stamp).1.wallets[i]? = some wallet ∧
      dispatch keccak256 walletPool db cid cbatch env
        = ((walletPool.getAvailableWallet env.now env.stamp).1.releaseWallet i,
           (processChainBatch keccak256 db cid cbatch wallet env).1) := by
  obtain ⟨w, hget, -⟩ := getAvailableWallet_spec walletPool env.now env.stamp i hlease
  have hpool := (getAvailableWallet_some walletPool env.now env.stamp i hlease).2
  have hgot : (walletPool.getAvailableWallet env.now env.stamp).1.wallets[i]?
      = some { w with IsProcessing := true, LastUsed := env.stamp } := by
    rw [hpool]
    simp [List.getElem?_modify, hget]
  refine ⟨_, hgot, ?_⟩
  unfold dispatch
  cases hres : walletPool.getAvailableWallet env.now env.stamp with
  | mk pool1 o =>
    rw [hres] at hlease hgot
    simp only at hlease hgot
    subst hlease
    simp only [hgot]

/-- C9, counterexample. The only wallet of the pool is in use, so the lease
returns no wallet; the dispatcher returns with the member swap still `pending`,
not `failed` (and with no batch record). -/
theorem dispatch_no_wallet_keeps_pending :
    (busyPool.getAvailableWallet sampleEnv.now sampleEnv.stamp).2 = none ∧
    (dispatch zeroDigest busyPool pendingDb 1 [sampleRequest] sampleEnv).2.swaps.map
        (fun row => (row.RequestID, row.Status)) = [("r1", "pending")] ∧
    (dispatch zeroDigest busyPool pendingDb 1 [sampleRequest] sampleEnv).2.batches = [] := by
  have h := dispatch_no_wallet zeroDigest busyPool pendingDb 1 [sampleRequest] sampleEnv
    (by decide)
  rw [h]
  exact ⟨by decide, rfl, rfl⟩

/-- C9, amended. When the lease returns no wallet, the dispatcher returns with
the store and the pool as they were: no batch record is created and the status
of every member swap is unchanged. -/
theorem dispatch_no_wallet_unchanged (keccak256 : List Nat → List (Fin 256))
    (walletPool : WalletPool) (db : Database) (cid : Int) (cbatch : List SwapRequest)
    (env : DispatchEnv)
    (hnone : (walletPool.getAvailableWallet env.now env.stamp).2 = none) :
    dispatch keccak256 walletPool db cid cbatch env = (walletPool, db) ∧
    (dispatch keccak256 walletPool db cid cbatch env).2.batches = db.batches ∧
    (dispatch keccak256 walletPool db cid cbatch env).2.swaps = db.swaps := by
  rw [dispatch_no_wallet keccak256 walletPool db cid cbatch env hnone]
  exact ⟨rfl, rfl, rfl⟩

/-- Witness of C9: the pool whose only wallet is in use. -/
theorem dispatch_no_wallet_unchanged_witness :
    dispatch zeroDigest busyPool pendingDb 1 [sampleRequest] sampleEnv
      = (busyPool, pendingDb) :=
  (dispatch_no_wallet_unchanged zeroDigest busyPool pendingDb 1 [sampleRequest] sampleEnv
    (by decide)).1

/-- C10, counterexample. A wallet is leased, the batch record and the
membership are written and `ProcessBatch` reports success; when the dispatcher
returns, the batch record has the status it was created with (`submitting`) and
the member swap has status `queued` when `swap.ID` reads as its request id and
is still `pending` when `swap.ID` reads as zero: in neither case is the batch
or the swap `completed`. -/
theorem dispatch_success_not_completed :
    (twoWalletPool.getAvailableWallet sampleEnv.now sampleEnv.stamp).2 = some 0 ∧
    sampleEnv.createBatchReply = .written 1 12 12 none ∧
    sampleEnv.addSwapsFailure = none ∧
    (freeWallet 1 1 0).ProcessBatch 1 [sampleRequest] 1 = .ok () ∧
    (dispatch zeroDigest twoWalletPool pendingDb 1 [sampleRequest] sampleEnv).2.batches.map
        (fun b => (b.ID, b.ChainID, b.Status)) = [(1, 1, "submitting")] ∧
    (dispatch zeroDigest twoWalletPool pendingDb 1 [sampleRequest] sampleEnv).2.swaps.map
        (fun row => (row.RequestID, row.Status)) = [("r1", "queued")] ∧
    (dispatch zeroDigest twoWalletPool pendingDb 1 [sampleRequest] zeroIdEnv).2.batches.map
        (fun b => (b.ID, b.ChainID, b.Status)) = [(1, 1, "submitting")] ∧
    (dispatch zeroDigest twoWalletPool pendingDb 1 [sampleRequest] zeroIdEnv).2.swaps.map
        (fun row => (row.RequestID, row.Status)) = [("r1", "pending")] := by
  refine ⟨by decide, rfl, rfl, rfl, ?_, ?_, ?_, ?_⟩ <;> decide

/-- C10, amended. When a wallet is leased, the batch record and the membership
are written and `ProcessBatch` reports success, the dispatcher returns with one
new batch record that carries the status it was created with, and every swap
row either as it was or, when its request id is among the ids handed to
`AddSwapsToBatch`, with status `queued`: nothing is set to `completed`. -/
theorem dispatch_success_statuses (keccak256 : List Nat → List (Fin 256))
    (walletPool : WalletPool) (db : Database) (cid : Int) (cbatch : List SwapRequest)
    (env : DispatchEnv) (i : Nat) (id createdAt updatedAt : Int)
    (hlease : (walletPool.getAvailableWallet env.now env.stamp).2 = some i)
    (hcreate : env.createBatchReply = .written id createdAt updatedAt none)
    (hadd : env.addSwapsFailure = none) :
    (∃ b, (dispatch keccak256 walletPool db cid cbatch env).2.batches = db.batches ++ [b] ∧
      b.ID = id ∧ b.ChainID = cid ∧ b.Status = env.status) ∧
    (dispatch keccak256 walletPool db cid cbatch env).2.swaps
      = db.swaps.map (fun row =>
          if row.RequestID ∈ cbatch.map (fun swap => env.swapID swap) then
            { row with Status := "queued", UpdatedAt := env.dbNow }
          else row) ∧
    (∀ row ∈ (dispatch keccak256 walletPool db cid cbatch env).2.swaps,
      row.Status = "queued" ∨ row ∈ db.swaps) := by
  obtain ⟨wallet, -, hd⟩ := dispatch_leased keccak256 walletPool db cid cbatch env i hlease
  rw [hd]
  have hp : (processChainBatch keccak256 db cid cbatch wallet env).1
      = { db with
          batches := db.batches ++
            [{ ID := id, BatchID := env.batchID,
               WalletAddress := Address.Hex keccak256 wallet.Address, ChainID := cid,
               SourceTxHash := none, TargetTxHash := none, Status := env.status,
               GasPrice := none, GasUsed := none, BlockNumber := none, ErrorMessage := none,
               CreatedAt := createdAt, UpdatedAt := updatedAt }]
          batch_swaps := db.batch_swaps ++ cbatch.map (fun swap => (id, env.swapID swap))
          swaps := db.swaps.map (fun row =>
            if row.RequestID ∈ cbatch.map (fun swap => env.swapID swap) then
              { row with Status := "queued", UpdatedAt := env.dbNow }
            else row) } := by
    simp [processChainBatch, Database.CreateBatch, Database.AddSwapsToBatch, hcreate, hadd,
      Function.comp_def]
  rw [hp]
  refine ⟨⟨_, rfl, rfl, rfl, rfl⟩, rfl, ?_⟩
  intro row hrow
  obtain ⟨r0, hr0mem, hr0⟩ := List.mem_map.1 hrow
  by_cases hin : r0.RequestID ∈ cbatch.map (fun swap => env.swapID swap)
  · rw [if_pos hin] at hr0
    rw [← hr0]
    exact Or.inl rfl
  · rw [if_neg hin] at hr0
    rw [← hr0]
    exact Or.inr hr0mem

/-- Witness of C10: the swap `r1` dispatched through the first wallet of the
pool leaves the store with one batch record at its creation status. -/
theorem dispatch_success_statuses_witness :
    ∃ b, (dispatch zeroDigest twoWalletPool pendingDb 1 [sampleRequest] sampleEnv).2.batches
        = pendingDb.batches ++ [b] ∧
      b.ID = 1 ∧ b.ChainID = 1 ∧ b.Status = sampleEnv.status :=
  (dispatch_success_statuses zeroDigest twoWalletPool pendingDb 1 [sampleRequest]
    sampleEnv 0 1 12 12 (by decide) rfl rfl).1

/-! ## The dispatcher and the nonces -/

theorem map_modify_of_invariant {β : Type} (g : Wallet → β) (f : Wallet → Wallet)
    (hg : ∀ w, g (f w) = g w) (l : List Wallet) (i : Nat) :
    (l.modify f i).map g = l.map g := by
  apply List.ext_getElem?
  intro n
  rw [List.getElem?_map, List.getElem?_map, List.getElem?_modify]
  cases l[n]? with
  | none => rfl
  | some w =>
    by_cases hin : i = n
    · simp [hin, hg]
    · simp [hin]

theorem getAvailableWallet_map (β : Type) (g : Wallet → β)
    (hg : ∀ (w : Wallet) (flag : Bool) (t : Int),
      g { w with IsProcessing := flag, LastUsed := t } = g w)
    (wp : WalletPool) (now stamp : Int) :
    (wp.getAvailableWallet now stamp).1.wallets.map g = wp.wallets.map g := by
  cases hres : (wp.getAvailableWallet now stamp).2 with
  | none => rw [getAvailableWallet_none wp now stamp hres]
  | some i =>
    rw [(getAvailableWallet_some wp now stamp i hres).2]
    exact map_modify_of_invariant g _ (fun w => hg w true stamp) _ _

theorem releaseWallet_map (β : Type) (g : Wallet → β)
    (hg : ∀ (w : Wallet) (flag : Bool) (t : Int),
      g { w with IsProcessing := flag, LastUsed := t } = g w)
    (wp : WalletPool) (i : Nat) :
    (wp.releaseWallet i).wallets.map g = wp.wallets.map g := by
  unfold WalletPool.releaseWallet
  exact map_modify_of_invariant g _ (fun w => hg w false w.LastUsed) _ _

theorem processChainBatch_hot_wallets (keccak256 : List Nat → List (Fin 256)) (db : Database)
    (chainID : Int) (batch : List SwapRequest) (wallet : Wallet) (env : DispatchEnv) :
    (processChainBatch keccak256 db chainID batch wallet env).1.hot_wallets
      = db.hot_wallets := by
  unfold processChainBatch Database.CreateBatch Database.AddSwapsToBatch
  cases env.createBatchReply with
  | rejected msg => rfl
  | written id createdAt updatedAt scanErr =>
    cases scanErr with
    | some msg => rfl
    | none =>
      cases env.addSwapsFailure with
      | some msg => rfl
      | none => rfl

theorem dispatch_map (keccak256 : List Nat → List (Fin 256)) (β : Type) (g : Wallet → β)
    (hg : ∀ (w : Wallet) (flag : Bool) (t : Int),
      g { w with IsProcessing := flag, LastUsed := t } = g w)
    (walletPool : WalletPool) (db : Database) (cid : Int) (cbatch : List SwapRequest)
    (env : DispatchEnv) :
    (dispatch keccak256 walletPool db cid cbatch env).1.wallets.map g
        = walletPool.wallets.map g ∧
    (dispatch keccak256 walletPool db cid cbatch env).2.hot_wallets = db.hot_wallets := by
  cases hres : (walletPool.getAvailableWallet env.now env.stamp).2 with
  | none =>
    rw [dispatch_no_wallet keccak256 walletPool db cid cbatch env hres]
    exact ⟨rfl, rfl⟩
  | some i =>
    obtain ⟨wallet, -, hd⟩ := dispatch_leased keccak256 walletPool db cid cbatch env i hres
    rw [hd]
    refine ⟨?_, processChainBatch_hot_wallets keccak256 db cid cbatch wallet env⟩
    simp only
    rw [releaseWallet_map β g hg, getAvailableWallet_map β g hg]

/-- C11, counterexample. Wallet 0 is leased for the partition of chain 1, the
batch record and the membership are written (the swap ends `queued`); the nonce
of every wallet for chain 1 is 0 before and 0 after, in memory and in the
store, not 1. -/
theorem dispatch_success_keeps_nonce :
    (twoWalletPool.getAvailableWallet sampleEnv.now sampleEnv.stamp).2 = some 0 ∧
    (dispatch zeroDigest twoWalletPool pendingWalletDb 1 [sampleRequest] sampleEnv).2.swaps.map
        (fun row => (row.RequestID, row.Status)) = [("r1", "queued")] ∧
    twoWalletPool.wallets.map (fun w => nonceGet w.NonceMap 1) = [0, 0] ∧
    (dispatch zeroDigest twoWalletPool pendingWalletDb 1 [sampleRequest] sampleEnv).1.wallets.map
        (fun w => nonceGet w.NonceMap 1) = [0, 0] ∧
    pendingWalletDb.hot_wallets.map (fun h => h.Nonce) = [0, 0] ∧
    (dispatch zeroDigest twoWalletPool pendingWalletDb 1 [sampleRequest]
        sampleEnv).2.hot_wallets.map (fun h => h.Nonce) = [0, 0] := by
  refine ⟨by decide, by decide, rfl, by decide, rfl, by decide⟩

/-- C11, amended. Whatever the outcome of the dispatcher of a partition, the
nonce of every wallet of the pool for every chain is the same after as before,
in the `NonceMap` of the wallet and in the `hot_wallets` rows of the store: no
outcome decreases a nonce and none increases it. -/
theorem dispatch_keeps_nonces (keccak256 : List Nat → List (Fin 256))
    (walletPool : WalletPool) (db : Database) (cid : Int) (cbatch : List SwapRequest)
    (env : DispatchEnv) (chainID : Int) :
    (dispatch keccak256 walletPool db cid cbatch env).1.wallets.map
        (fun w => nonceGet w.NonceMap chainID)
      = walletPool.wallets.map (fun w => nonceGet w.NonceMap chainID) ∧
    (dispatch keccak256 walletPool db cid cbatch env).1.wallets.map (fun w => w.NonceMap)
      = walletPool.wallets.map (fun w => w.NonceMap) ∧
    (dispatch keccak256 walletPool db cid cbatch env).2.hot_wallets = db.hot_wallets :=
  ⟨(dispatch_map keccak256 Nat (fun w => nonceGet w.NonceMap chainID) (fun _ _ _ => rfl)
      walletPool db cid cbatch env).1,
   (dispatch_map keccak256 (List (Int × Nat)) (fun w => w.NonceMap) (fun _ _ _ => rfl)
      walletPool db cid cbatch env).1,
   (dispatch_map keccak256 Nat (fun w => nonceGet w.NonceMap chainID) (fun _ _ _ => rfl)
      walletPool db cid cbatch env).2⟩

/-! ## The wallet pool: when a lease finds no wallet -/

theorem getAvailableWallet_snd (wp : WalletPool) (now stamp : Int) :
    (wp.getAvailableWallet now stamp).2 = (selectLoop wp.wallets 0 none now).1 := by
  unfold WalletPool.getAvailableWallet
  cases (selectLoop wp.wallets 0 none now).1 <;> rfl

/-- C12, counterexample. The only wallet of the pool is not in use and was last
used at clock reading 10; the lease at clock reading 10 returns no wallet. -/
theorem lease_none_with_free_wallet :
    stalePool.wallets.map (fun w => (w.IsProcessing, w.LastUsed)) = [(false, 10)] ∧
    (stalePool.getAvailableWallet 10 11).2 = none := by
  refine ⟨rfl, by decide⟩

/-- C12, amended. For every pool and every clock reading `now`, the lease
returns no wallet exactly when every wallet of the pool is in use or has a
`LastUsed` that is not before `now`; so it returns a wallet whenever some
wallet is not in use and was last used strictly before `now`. -/
theorem lease_none_iff (wp : WalletPool) (now stamp : Int) :
    ((wp.getAvailableWallet now stamp).2 = none ↔
      ∀ (j : Nat) (w : Wallet), wp.wallets[j]? = some w →
        w.IsProcessing = true ∨ now ≤ w.LastUsed) ∧
    ((∃ (j : Nat) (w : Wallet), wp.wallets[j]? = some w ∧ w.IsProcessing = false ∧
        w.LastUsed < now) ↔
      ∃ i, (wp.getAvailableWallet now stamp).2 = some i) := by
  have hnone : (wp.getAvailableWallet now stamp).2 = none ↔
      ∀ (j : Nat) (w : Wallet), wp.wallets[j]? = some w →
        w.IsProcessing = true ∨ now ≤ w.LastUsed := by
    constructor
    · intro h j w hget
      rw [getAvailableWallet_snd] at h
      obtain ⟨hmin, -, hcase⟩ := selectLoop_spec wp.wallets 0 none now
      rcases hcase with heq | ⟨k, wk, hres, -⟩
      · cases hflag : w.IsProcessing with
        | true => exact Or.inl rfl
        | false =>
          have := hmin j w hget hflag
          rw [heq] at this
          exact Or.inr this
      · rw [hres] at h; cases h
    · intro h
      cases hres : (wp.getAvailableWallet now stamp).2 with
      | none => rfl
      | some i =>
        obtain ⟨w, hget, hfree, hlt, -⟩ := getAvailableWallet_spec wp now stamp i hres
        rcases h i w hget with hbusy | hle
        · rw [hfree] at hbusy; cases hbusy
        · omega
  refine ⟨hnone, ?_⟩
  constructor
  · rintro ⟨j, w, hget, hfree, hlt⟩
    cases hres : (wp.getAvailableWallet now stamp).2 with
    | some i => exact ⟨i, rfl⟩
    | none =>
      rcases (hnone.1 hres) j w hget with hbusy | hle
      · rw [hfree] at hbusy; cases hbusy
      · omega
  · rintro ⟨i, hres⟩
    obtain ⟨w, hget, hfree, hlt, -⟩ := getAvailableWallet_spec wp now stamp i hres
    exact ⟨i, w, hget, hfree, hlt⟩

/-! ## The aggregator: conservation of admitted requests -/

theorem capturedBatch_nil (keccak256 : List Nat → List (Fin 256)) (bp : BatchProcessor)
    (envs : Int → DispatchEnv) : bp.capturedBatch keccak256 envs = [] := by
  unfold BatchProcessor.capturedBatch
  rw [processLoop_outcome]
  cases bp.batchMutex <;> rfl

theorem step_close_fields (keccak256 : List Nat → List (Fin 256)) (bp : BatchProcessor)
    (envs : Int → DispatchEnv) :
    (bp.step keccak256 (Step.close envs)).currentBatch = bp.currentBatch ∧
    (bp.step keccak256 (Step.close envs)).batchTimer = bp.batchTimer ∧
    (bp.step keccak256 (Step.close envs)).walletPool = bp.walletPool ∧
    (bp.step keccak256 (Step.close envs)).db = bp.db := by
  rcases step_close_eq keccak256 bp envs with h | h <;> rw [h] <;> exact ⟨rfl, rfl, rfl, rfl⟩

theorem admitted_conserved_from (keccak256 : List Nat → List (Fin 256)) (steps : List Step) :
    ∀ bp : BatchProcessor, (∃ t, bp.batchTimer = some t) →
      (BatchProcessor.capturedBatches keccak256 bp steps).flatten
          ++ (bp.run keccak256 steps).currentBatch
        = bp.currentBatch ++ BatchProcessor.admittedRequests keccak256 bp steps := by
  induction steps with
  | nil => intro bp _; simp [BatchProcessor.capturedBatches, BatchProcessor.admittedRequests,
      BatchProcessor.run]
  | cons st rest ih =>
    intro bp htimer
    obtain ⟨t, ht⟩ := htimer
    have hrun : bp.run keccak256 (st :: rest) = (bp.step keccak256 st).run keccak256 rest := rfl
    rw [hrun]
    cases st with
    | close envs =>
      obtain ⟨hcb, htm, -, -⟩ := step_close_fields keccak256 bp envs
      have := ih (bp.step keccak256 (Step.close envs)) ⟨t, by rw [htm]; exact ht⟩
      simp only [BatchProcessor.capturedBatches, BatchProcessor.admittedRequests,
        List.flatten_cons, capturedBatch_nil, List.nil_append]
      rw [this, hcb]
    | timeout =>
      have hfields : (bp.step keccak256 Step.timeout).currentBatch = bp.currentBatch ∧
          ∃ t2, (bp.step keccak256 Step.timeout).batchTimer = some t2 := by
        simp only [BatchProcessor.step]
        rcases timerExpires_eq bp t ht with h | h <;> rw [h]
        · exact ⟨rfl, t, ht⟩
        · exact ⟨rfl, _, rfl⟩
      have := ih (bp.step keccak256 Step.timeout) hfields.2
      simp only [BatchProcessor.capturedBatches, BatchProcessor.admittedRequests]
      rw [this, hfields.1]
    | add req =>
      simp only [BatchProcessor.capturedBatches, BatchProcessor.admittedRequests]
      cases hm : bp.batchMutex with
      | true =>
        have hst : bp.step keccak256 (Step.add req) = bp := by
          simp only [BatchProcessor.step, AddRequest_held bp req hm]
        rw [hst, AddRequest_held bp req hm]
        simpa using ih bp ⟨t, ht⟩
      | false =>
        by_cases hlt : bp.currentBatch.length + 1 < BATCH_SIZE
        · have hst : bp.step keccak256 (Step.add req)
              = { bp with currentBatch := bp.currentBatch ++ [req] } := by
            simp only [BatchProcessor.step, AddRequest_below bp req hm hlt]
          rw [hst, AddRequest_below bp req hm hlt]
          have := ih { bp with currentBatch := bp.currentBatch ++ [req] } ⟨t, ht⟩
          rw [this]
          simp
        · have hst : bp.step keccak256 (Step.add req)
              = { bp with
                    currentBatch := bp.currentBatch ++ [req]
                    batchTimer := some { t with stopped := true }
                    processChan := true } := by
            simp only [BatchProcessor.step, AddRequest_full bp req t hm (by omega) ht]
          rw [hst, AddRequest_full bp req t hm (by omega) ht]
          have := ih { bp with
                    currentBatch := bp.currentBatch ++ [req]
                    batchTimer := some { t with stopped := true }
                    processChan := true } ⟨_, rfl⟩
          rw [this]
          simp

/-- C13. On every sequence of calls of `AddRequest`, expiries of the timer and
iterations of `processLoop` from a fresh aggregator, the batches handed to the
dispatch stage, in close order, followed by the open batch are exactly the
admitted requests (those of the calls of `AddRequest` that returned) in
admission order. A close on an empty open batch hands over nothing, leaves the
open batch empty and leaves the pool and the store as they were. -/
theorem admitted_requests_conserved (keccak256 : List Nat → List (Fin 256))
    (walletPool : WalletPool) (db : Database) (steps : List Step)
    (bp : BatchProcessor) (envs : Int → DispatchEnv) :
    (BatchProcessor.capturedBatches keccak256 (NewBatchProcessor walletPool db) steps).flatten
        ++ ((NewBatchProcessor walletPool db).run keccak256 steps).currentBatch
      = BatchProcessor.admittedRequests keccak256 (NewBatchProcessor walletPool db) steps ∧
    BatchProcessor.capturedBatch keccak256 { bp with currentBatch := [] } envs = [] ∧
    (BatchProcessor.step keccak256 { bp with currentBatch := [] }
      (Step.close envs)).currentBatch = [] ∧
    (BatchProcessor.step keccak256 { bp with currentBatch := [] }
      (Step.close envs)).walletPool = bp.walletPool ∧
    (BatchProcessor.step keccak256 { bp with currentBatch := [] }
      (Step.close envs)).db = bp.db := by
  have h := admitted_conserved_from keccak256 steps (NewBatchProcessor walletPool db) ⟨_, rfl⟩
  have h0 : (NewBatchProcessor walletPool db).currentBatch = [] := rfl
  rw [h0, List.nil_append] at h
  obtain ⟨hcb, -, hwp, hdb⟩ :=
    step_close_fields keccak256 { bp with currentBatch := [] } envs
  exact ⟨h, capturedBatch_nil keccak256 _ envs, hcb, hwp, hdb⟩

end BridgeSwap
